import Mathlib

/-!
# Verification of the jobsite-tracker data model and schema migration

A shallow embedding of the persistence/migration/query core of `app.py`
(Electrical Jobsite Buddy).  Persisted documents are modelled as JSON-like
values (`JVal`); Python dictionaries become insertion-ordered association
lists, Python's in-place mutations become functional updates that preserve
key positions, and code paths that raise a Python exception are modelled by
`Option`-valued functions returning `none`.  External effects (uuid draws,
timestamps, file writes, HTTP fetches) are passed in explicitly: random
draws as a stream `rand : Nat → Nat` consumed via a counter, the clock as a
string argument, and every `save_db` call is reported in an explicit write
list.
-/

set_option maxHeartbeats 1000000

/-- JSON-like values, the shape of everything `json.load` can produce. -/
inductive JVal where
  | jnull : JVal
  | jbool : Bool → JVal
  | jnum : Int → JVal
  | jstr : String → JVal
  | jarr : List JVal → JVal
  | jobj : List (String × JVal) → JVal
deriving Repr

mutual

/-- Decidable structural equality on JSON values (Python `==` on parsed
JSON documents). -/
def JVal.decEq : (a b : JVal) → Decidable (a = b)
  | .jnull, .jnull => isTrue rfl
  | .jnull, .jbool _ => isFalse nofun
  | .jnull, .jnum _ => isFalse nofun
  | .jnull, .jstr _ => isFalse nofun
  | .jnull, .jarr _ => isFalse nofun
  | .jnull, .jobj _ => isFalse nofun
  | .jbool _, .jnull => isFalse nofun
  | .jbool a, .jbool b =>
    if h : a = b then isTrue (by rw [h]) else isFalse (fun hh => h (JVal.jbool.inj hh))
  | .jbool _, .jnum _ => isFalse nofun
  | .jbool _, .jstr _ => isFalse nofun
  | .jbool _, .jarr _ => isFalse nofun
  | .jbool _, .jobj _ => isFalse nofun
  | .jnum _, .jnull => isFalse nofun
  | .jnum _, .jbool _ => isFalse nofun
  | .jnum a, .jnum b =>
    if h : a = b then isTrue (by rw [h]) else isFalse (fun hh => h (JVal.jnum.inj hh))
  | .jnum _, .jstr _ => isFalse nofun
  | .jnum _, .jarr _ => isFalse nofun
  | .jnum _, .jobj _ => isFalse nofun
  | .jstr _, .jnull => isFalse nofun
  | .jstr _, .jbool _ => isFalse nofun
  | .jstr _, .jnum _ => isFalse nofun
  | .jstr a, .jstr b =>
    if h : a = b then isTrue (by rw [h]) else isFalse (fun hh => h (JVal.jstr.inj hh))
  | .jstr _, .jarr _ => isFalse nofun
  | .jstr _, .jobj _ => isFalse nofun
  | .jarr _, .jnull => isFalse nofun
  | .jarr _, .jbool _ => isFalse nofun
  | .jarr _, .jnum _ => isFalse nofun
  | .jarr _, .jstr _ => isFalse nofun
  | .jarr xs, .jarr ys =>
    match JVal.decEqArr xs ys with
    | isTrue h => isTrue (by rw [h])
    | isFalse h => isFalse (fun hh => h (JVal.jarr.inj hh))
  | .jarr _, .jobj _ => isFalse nofun
  | .jobj _, .jnull => isFalse nofun
  | .jobj _, .jbool _ => isFalse nofun
  | .jobj _, .jnum _ => isFalse nofun
  | .jobj _, .jstr _ => isFalse nofun
  | .jobj _, .jarr _ => isFalse nofun
  | .jobj xs, .jobj ys =>
    match JVal.decEqObj xs ys with
    | isTrue h => isTrue (by rw [h])
    | isFalse h => isFalse (fun hh => h (JVal.jobj.inj hh))

/-- Decidable equality of JSON arrays. -/
def JVal.decEqArr : (xs ys : List JVal) → Decidable (xs = ys)
  | [], [] => isTrue rfl
  | [], _ :: _ => isFalse nofun
  | _ :: _, [] => isFalse nofun
  | x :: xs, y :: ys =>
    match JVal.decEq x y with
    | isFalse h => isFalse (fun hh => h (List.head_eq_of_cons_eq hh))
    | isTrue h =>
      match JVal.decEqArr xs ys with
      | isTrue h' => isTrue (by rw [h, h'])
      | isFalse h' => isFalse (fun hh => h' (List.tail_eq_of_cons_eq hh))

/-- Decidable equality of JSON objects (ordered key-value lists). -/
def JVal.decEqObj : (xs ys : List (String × JVal)) → Decidable (xs = ys)
  | [], [] => isTrue rfl
  | [], _ :: _ => isFalse nofun
  | _ :: _, [] => isFalse nofun
  | (k, x) :: xs, (k', y) :: ys =>
    if hk : k = k' then
      match JVal.decEq x y with
      | isFalse h =>
        isFalse (fun hh => h (congrArg Prod.snd (List.head_eq_of_cons_eq hh)))
      | isTrue h =>
        match JVal.decEqObj xs ys with
        | isTrue h' => isTrue (by rw [hk, h, h'])
        | isFalse h' => isFalse (fun hh => h' (List.tail_eq_of_cons_eq hh))
    else
      isFalse (fun hh => hk (congrArg Prod.fst (List.head_eq_of_cons_eq hh)))

end

instance : DecidableEq JVal := JVal.decEq

/-! ## Python string primitives

`String.trim`/`String.toLower` from core use `Substring` auxiliaries that
are defined by well-founded recursion and do not reduce in the kernel, so
Python's `str.strip()`, `str.lower()` and substring `in` are modelled
directly over character lists. -/

/-- Python `s.strip()`: drop whitespace from both ends. -/
def pyStrip (s : String) : String :=
  String.mk (List.rdropWhile Char.isWhitespace (s.data.dropWhile Char.isWhitespace))

/-- Python `s.lower()`. -/
def pyLower (s : String) : String :=
  String.mk (s.data.map Char.toLower)

/-- Whether `pre` is a prefix of `l` (step of the substring test). -/
def listPrefixB : List Char → List Char → Bool
  | [], _ => true
  | _ :: _, [] => false
  | a :: as, b :: bs => a = b && listPrefixB as bs

/-- Whether `needle` occurs as a contiguous run inside `hay`. -/
def listInfixB (needle : List Char) : List Char → Bool
  | [] => needle.isEmpty
  | b :: bs => listPrefixB needle (b :: bs) || listInfixB needle bs

/-- Python `needle in hay` on strings. -/
def strContainsSub (hay needle : String) : Bool :=
  listInfixB needle.data hay.data

/-! ## JSON-side Python primitives -/

/-- First-match lookup in an insertion-ordered dict (Python `d[k]` / `k in d`;
parsed JSON objects have unique keys). -/
def olookup (kvs : List (String × JVal)) (k : String) : Option JVal :=
  match kvs with
  | [] => none
  | (k', v) :: rest => if k' = k then some v else olookup rest k

/-- Python `d[k] = v`: replace in place if the key exists (keeping its
position), otherwise append at the end. -/
def oset (kvs : List (String × JVal)) (k : String) (v : JVal) : List (String × JVal) :=
  match kvs with
  | [] => [(k, v)]
  | (k', v') :: rest => if k' = k then (k', v) :: rest else (k', v') :: oset rest k v

/-- Python `d.setdefault(k, v)`: insert at the end only when absent. -/
def osetdefault (kvs : List (String × JVal)) (k : String) (v : JVal) : List (String × JVal) :=
  if (olookup kvs k).isSome then kvs else kvs ++ [(k, v)]

/-- Python `d.get(k, dflt)`. -/
def ogetD (kvs : List (String × JVal)) (k : String) (dflt : JVal) : JVal :=
  (olookup kvs k).getD dflt

/-- Python truthiness of a JSON value (`if x:`). -/
def JVal.truthy : JVal → Bool
  | .jnull => false
  | .jbool b => b
  | .jnum n => n != 0
  | .jstr s => !s.data.isEmpty
  | .jarr xs => !xs.isEmpty
  | .jobj kvs => !kvs.isEmpty

/-- Iterating a JSON value with `for x in v`: lists yield elements, strings
yield their characters (as one-character strings), dicts yield their keys;
iterating a number/bool/null raises `TypeError`, modelled as `none`. -/
def jIterElems : JVal → Option (List JVal)
  | .jarr xs => some xs
  | .jstr s => some (s.data.map (fun c => .jstr (String.singleton c)))
  | .jobj kvs => some (kvs.map (fun kv => .jstr kv.1))
  | _ => none

/-- Python `p in container` (`none` on `TypeError`): list membership uses
equality, string containment needs a string on the left, dict membership
tests keys (our object keys are strings, so non-string hashable values are
never members and unhashable values raise). -/
def pyMem (p : JVal) (container : JVal) : Option Bool :=
  match container with
  | .jarr xs => some (decide (p ∈ xs))
  | .jstr s =>
    match p with
    | .jstr ps => some (strContainsSub s ps)
    | _ => none
  | .jobj kvs =>
    match p with
    | .jstr ps => some (kvs.any (fun kv => kv.1 = ps))
    | .jarr _ => none
    | .jobj _ => none
    | _ => some false
  | _ => none

/-- Python `container.append(p)`: only lists support it, anything else
raises `AttributeError` (modelled as `none`). -/
def pyAppend (container : JVal) (p : JVal) : Option JVal :=
  match container with
  | .jarr xs => some (.jarr (xs ++ [p]))
  | _ => none

/-! ## App metadata and item construction (`app.py` lines 32, 158-179) -/

def APP_VERSION : String := "v0.7.0 (Planned Pack)"

/-- One hex digit. -/
def hexDigitChar (n : Nat) : Char :=
  if n < 10 then Char.ofNat (48 + n) else Char.ofNat (87 + n % 16)

/-- Big-endian hex digits of `r`, zero-padded to `len` digits. -/
def hexDigits : Nat → Nat → List Char
  | 0, _ => []
  | len + 1, r => hexDigits len (r / 16) ++ [hexDigitChar (r % 16)]

/-- `uuid.uuid4().hex[:10]` as used by `new_item`: the hex form of a uuid is
always 32 characters, of which the first 10 are kept; the random 128-bit
draw is the explicit argument. -/
def uuid_hex10 (r : Nat) : String := String.mk ((hexDigits 32 r).take 10)

/-- `new_item` (app.py lines 162-170); the uuid draw `r` and the clock
reading `nowTs` are explicit. -/
def new_item (r : Nat) (nowTs : String) (text priority link : String) : JVal :=
  .jobj [("id", .jstr (uuid_hex10 r)),
         ("text", .jstr (pyStrip text)),
         ("done", .jbool false),
         ("priority", .jstr priority),
         ("link", .jstr (pyStrip link)),
         ("created_at", .jstr nowTs)]

/-- `default_db` (app.py lines 173-179). -/
def default_db (nowTs : String) : JVal :=
  .jobj [("version", .jnum 2),
         ("created_at", .jstr nowTs),
         ("app_version", .jstr APP_VERSION),
         ("job_sites", .jobj [])]

/-! ## List migration (`migrate_list_to_items`, app.py lines 231-243) -/

/-- `isinstance(maybe_list[0], dict) and "text" in maybe_list[0]`. -/
def isTextDict : JVal → Bool
  | .jobj kvs => (olookup kvs "text").isSome
  | _ => false

/-- The string-conversion loop of `migrate_list_to_items`: keep non-blank
strings (stripped), skip everything else, one uuid draw per created item. -/
def convert_strings (rand : Nat → Nat) (nowTs : String) :
    Nat → List JVal → List JVal × Nat
  | ctr, [] => ([], ctr)
  | ctr, x :: xs =>
    match x with
    | .jstr s =>
      if (pyStrip s) = "" then convert_strings rand nowTs ctr xs
      else
        let rest := convert_strings rand nowTs (ctr + 1) xs
        (new_item (rand ctr) nowTs (pyStrip s) "Medium" "" :: rest.1, rest.2)
    | _ => convert_strings rand nowTs ctr xs

/-- `migrate_list_to_items` (app.py lines 231-243).  Non-lists and empty
lists become `[]`; a list whose first element is a dict with a `text` key is
returned unchanged (fast path); otherwise the string-conversion loop runs. -/
def migrate_list_to_items (rand : Nat → Nat) (nowTs : String) (ctr : Nat)
    (maybe_list : JVal) : JVal × Nat :=
  match maybe_list with
  | .jarr [] => (.jarr [], ctr)
  | .jarr (x :: xs) =>
    if isTextDict x then (.jarr (x :: xs), ctr)
    else
      let out := convert_strings rand nowTs ctr (x :: xs)
      (.jarr out.1, out.2)
  | _ => (.jarr [], ctr)

/-! ## Per-site migration (body of the `for site_name, site` loop in
`migrate_db`, app.py lines 257-289) -/

/-- The entries of the fresh five-key `section_photos` dict created when
the field is missing or not a dict (app.py lines 272-279). -/
def freshSectionsKvs : List (String × JVal) :=
  [("what_to_do", .jarr []),
   ("materials", .jarr []),
   ("to_buy", .jarr []),
   ("notes", .jarr []),
   ("general", .jarr [])]

/-- The fresh five-key `section_photos` dict. -/
def freshSections : JVal := .jobj freshSectionsKvs

/-- The five fixed section keys, in the order the code backfills them. -/
def sectionKeys : List String := ["what_to_do", "materials", "to_buy", "notes", "general"]

/-- The `for p in site["photos"]` loop (app.py lines 287-289): mirror each
legacy photo into `section_photos["general"]` unless already present.
Reading a missing `general` key, a membership test on an unsupported
container, or `.append` on a non-list raises, modelled as `none`. -/
def mirror_photos : List JVal → List (String × JVal) → Option (List (String × JVal))
  | [], sp => some sp
  | p :: rest, sp =>
    match olookup sp "general" with
    | none => none
    | some g =>
      match pyMem p g with
      | none => none
      | some true => mirror_photos rest sp
      | some false =>
        match pyAppend g p with
        | none => none
        | some g' => mirror_photos rest (oset sp "general" g')

/-- The three `setdefault` backfills at the top of the site loop
(app.py lines 261-263). -/
def site_defaults (nowTs : String) (site : List (String × JVal)) : List (String × JVal) :=
  osetdefault (osetdefault (osetdefault site "created_at" (.jstr nowTs))
    "notes" (.jstr "")) "photos" (.jarr [])

/-- The four item-list migrations (app.py lines 266-269), threading the
uuid counter through the lists in source order. -/
def site_lists (rand : Nat → Nat) (nowTs : String) (ctr : Nat)
    (s : List (String × JVal)) : List (String × JVal) × Nat :=
  let m1 := migrate_list_to_items rand nowTs ctr (ogetD s "what_to_do" (.jarr []))
  let s4 := oset s "what_to_do" m1.1
  let m2 := migrate_list_to_items rand nowTs m1.2 (ogetD s4 "materials_need" (.jarr []))
  let s5 := oset s4 "materials_need" m2.1
  let m3 := migrate_list_to_items rand nowTs m2.2 (ogetD s5 "materials_have" (.jarr []))
  let s6 := oset s5 "materials_have" m3.1
  let m4 := migrate_list_to_items rand nowTs m3.2 (ogetD s6 "to_buy" (.jarr []))
  (oset s6 "to_buy" m4.1, m4.2)

/-- Replace a missing or non-dict `section_photos` with the fresh five-key
dict (app.py lines 272-279). -/
def ensure_sections (s : List (String × JVal)) : List (String × JVal) :=
  match olookup s "section_photos" with
  | some (.jobj _) => s
  | _ => oset s "section_photos" freshSections

/-- The key-value list of the (ensured) `section_photos` dict. -/
def sections_of (s : List (String × JVal)) : List (String × JVal) :=
  match olookup s "section_photos" with
  | some (.jobj kvs) => kvs
  | _ => []

/-- One iteration of the site loop of `migrate_db` (app.py lines 257-289),
for a site that is a dict: backfill `created_at`/`notes`/`photos`, migrate
the four item lists, ensure `section_photos` with its five keys, then mirror
legacy photos into the `general` section.  `ctr` indexes the uuid stream. -/
def migrate_site (rand : Nat → Nat) (nowTs : String) (ctr : Nat)
    (site : List (String × JVal)) : Option (List (String × JVal) × Nat) :=
  let ml := site_lists rand nowTs ctr (site_defaults nowTs site)
  let s8 := ensure_sections ml.1
  let sp2 := sectionKeys.foldl (fun acc k => osetdefault acc k (.jarr [])) (sections_of s8)
  let s9 := oset s8 "section_photos" (.jobj sp2)
  if (ogetD s9 "photos" .jnull).truthy then
    match jIterElems (ogetD s9 "photos" .jnull) with
    | none => none
    | some ps =>
      match mirror_photos ps sp2 with
      | none => none
      | some sp3 => some (oset s9 "section_photos" (.jobj sp3), ml.2)
  else
    some (s9, ml.2)

/-- The site loop of `migrate_db`: dict-valued sites are migrated in place,
anything else is skipped by the `continue` (app.py lines 257-259). -/
def migrate_sites (rand : Nat → Nat) (nowTs : String) :
    Nat → List (String × JVal) → Option (List (String × JVal) × Nat)
  | ctr, [] => some ([], ctr)
  | ctr, (name, v) :: rest =>
    match v with
    | .jobj site =>
      match migrate_site rand nowTs ctr site with
      | none => none
      | some (site', c') =>
        match migrate_sites rand nowTs c' rest with
        | none => none
        | some (rest', c'') => some ((name, .jobj site') :: rest', c'')
    | _ =>
      match migrate_sites rand nowTs ctr rest with
      | none => none
      | some (rest', c') => some ((name, v) :: rest', c')

/-- `if "job_sites" not in db or not isinstance(db["job_sites"], dict)`
(app.py lines 250-251). -/
def ensure_job_sites (kvs : List (String × JVal)) : List (String × JVal) :=
  match olookup kvs "job_sites" with
  | some (.jobj _) => kvs
  | _ => oset kvs "job_sites" (.jobj [])

/-- The key-value list behind `db["job_sites"]` (guaranteed to be a dict by
`ensure_job_sites`). -/
def job_sites_of (kvs : List (String × JVal)) : List (String × JVal) :=
  match olookup kvs "job_sites" with
  | some (.jobj svs) => svs
  | _ => []

/-- `migrate_db` (app.py lines 246-292).  Returns the document the Python
function returns together with the list of `save_db` writes it performed;
`none` models an uncaught exception.  A non-dict root returns a fresh
default database (and performs no write, since the `save_db(db)` on line
291 is only reached on the dict path). -/
def migrate_db (rand : Nat → Nat) (nowTs : String) (db : JVal) :
    Option (JVal × List JVal) :=
  match db with
  | .jobj kvs =>
    let kvs1 := ensure_job_sites kvs
    let kvs2 := osetdefault kvs1 "version" (.jnum 2)
    let kvs3 := oset kvs2 "app_version" (.jstr APP_VERSION)
    match migrate_sites rand nowTs 0 (job_sites_of kvs3) with
    | none => none
    | some (sites', _) =>
      let out := JVal.jobj (oset kvs3 "job_sites" (.jobj sites'))
      some (out, [out])
  | _ => some (default_db nowTs, [])

/-! ## Persistence gateway (`save_db`/`load_db`, app.py lines 182-202) -/

/-- `load_db` (app.py lines 187-202).  File existence and the outcome of
`json.load` (`none` = parse error) stand in for the file system; the result
pairs the returned document with the `save_db` writes performed, and an
outer `none` models an exception escaping `load_db` (only the `json.load`
call is guarded by `try`; `migrate_db` is not). -/
def load_db (rand : Nat → Nat) (nowTs : String) (fileExists : Bool)
    (parsed : Option JVal) : Option (JVal × List JVal) :=
  if fileExists = false then
    some (default_db nowTs, [default_db nowTs])
  else
    match parsed with
    | none => some (default_db nowTs, [default_db nowTs])
    | some db => migrate_db rand nowTs db

/-! ## Query/filter helpers (`site_search_filter`, app.py lines 558-579) -/

/-- The filtered view returned by `site_search_filter` for a non-empty
query: the four filtered item lists plus the notes flag. -/
structure SearchHits where
  what_to_do : List JVal
  materials_need : List JVal
  materials_have : List JVal
  to_buy : List JVal
  notes_hit : Bool
deriving DecidableEq, Repr

/-- `q in it.get("text", "").lower() or q in it.get("link", "").lower()`
(app.py lines 569-570).  Short-circuit: when the text matches, the link is
not inspected.  A non-dict item or a non-string field raises (`none`). -/
def match_item (q : String) (it : JVal) : Option Bool :=
  match it with
  | .jobj kvs =>
    match (olookup kvs "text").getD (.jstr "") with
    | .jstr t =>
      if strContainsSub (pyLower t) q then some true
      else
        match (olookup kvs "link").getD (.jstr "") with
        | .jstr l => some (strContainsSub (pyLower l) q)
        | _ => none
    | _ => none
  | _ => none

/-- The list comprehension `[it for it in site[k] if match_item(it)]`. -/
def filterItems (q : String) : List JVal → Option (List JVal)
  | [] => some []
  | it :: rest =>
    match match_item q it with
    | none => none
    | some b =>
      match filterItems q rest with
      | none => none
      | some out => some (if b then it :: out else out)

/-- `site_search_filter` (app.py lines 564-579).  `some none` is the `None`
("no filter") return for a blank query; `some (some hits)` is the filtered
dict; the outer `none` models an exception (missing list key, ill-typed
field). -/
def site_search_filter (site : JVal) (query : String) : Option (Option SearchHits) :=
  let q := pyLower (pyStrip query)
  if q = "" then some none
  else
    match site with
    | .jobj kvs =>
      match olookup kvs "what_to_do" with
      | some (.jarr l1) =>
        match filterItems q l1 with
        | none => none
        | some f1 =>
          match olookup kvs "materials_need" with
          | some (.jarr l2) =>
            match filterItems q l2 with
            | none => none
            | some f2 =>
              match olookup kvs "materials_have" with
              | some (.jarr l3) =>
                match filterItems q l3 with
                | none => none
                | some f3 =>
                  match olookup kvs "to_buy" with
                  | some (.jarr l4) =>
                    match filterItems q l4 with
                    | none => none
                    | some f4 =>
                      match (olookup kvs "notes").getD (.jstr "") with
                      | .jstr notes =>
                        some (some ⟨f1, f2, f3, f4, strContainsSub (pyLower notes) q⟩)
                      | _ => none
                  | _ => none
              | _ => none
          | _ => none
      | _ => none
    | _ => none

/-! ## Presentation sort (`sort_items`, app.py lines 475-481) -/

/-- `prio_rank.get(pr, 1)` with `prio_rank = {"High": 0, "Medium": 1,
"Low": 2}`; an unhashable priority value raises (`none`). -/
def prio_rank_of : JVal → Option Nat
  | .jarr _ => none
  | .jobj _ => none
  | .jstr s => some (if s = "High" then 0 else if s = "Medium" then 1 else if s = "Low" then 2 else 1)
  | _ => some 1

/-- `key_fn` of `sort_items`: `(bool(done), prio_rank, created_at)`.  The
comparisons Python performs on these tuples need `created_at` values of one
comparable type; the app only ever writes ISO strings there, and any other
type is modelled as a sort error (`none`), as is calling `.get` on a
non-dict element. -/
def sortKey (x : JVal) : Option (Bool × Nat × String) :=
  match x with
  | .jobj kvs =>
    match prio_rank_of ((olookup kvs "priority").getD (.jstr "Medium")) with
    | none => none
    | some pr =>
      match (olookup kvs "created_at").getD (.jstr "") with
      | .jstr c => some (((olookup kvs "done").getD (.jbool false)).truthy, pr, c)
      | _ => none
  | _ => none

/-- Lexicographic character-list comparison: Python `<=` on strings. -/
def charListLe : List Char → List Char → Bool
  | [], _ => true
  | _ :: _, [] => false
  | a :: as, b :: bs => decide (a < b) || (decide (a = b) && charListLe as bs)

/-- Python `<=` on the sort-key tuples: `done` ascending (False before
True), then priority rank, then `created_at` string order. -/
def keyLe (a b : Bool × Nat × String) : Bool :=
  if a.1 = b.1 then
    if a.2.1 = b.2.1 then charListLe a.2.2.data b.2.2.data
    else decide (a.2.1 < b.2.1)
  else decide (a.1 = false)

/-- The ordering relation `sort_items` sorts keyed items by. -/
def kle (a b : (Bool × Nat × String) × JVal) : Prop := keyLe a.1 b.1 = true

instance : DecidableRel kle := fun a b => instDecidableEqBool (keyLe a.1 b.1) true

/-- `list.sort(key=key_fn)` computes the key of every element up front;
a key error on any element aborts the whole sort. -/
def keyItems : List JVal → Option (List ((Bool × Nat × String) × JVal))
  | [] => some []
  | x :: xs =>
    match sortKey x with
    | none => none
    | some k =>
      match keyItems xs with
      | none => none
      | some rest => some ((k, x) :: rest)

/-- `sort_items` (app.py lines 475-481): Python's stable `list.sort(key=
key_fn)`, modelled as computing all keys first and then running a stable
sort (insertion sort is stable, like Timsort); the sorted list stands for
the in-place mutation of the stored list. -/
def sort_items (items : List JVal) : Option (List JVal) :=
  match keyItems items with
  | none => none
  | some keyed => some ((List.insertionSort kle keyed).map Prod.snd)

/-- The effect of `items_table_ui` (app.py lines 512-517) on the stored
list it renders: an empty list returns before sorting; otherwise
`sort_items(items)` reorders the stored list in place.  (The per-row
checkbox/delete interactions mutate contents on user input and are not part
of the rendering order model.) -/
def items_table_ui_order (items : List JVal) : Option (List JVal) :=
  if items.isEmpty then some items else sort_items items

/-! ## Manual search (`duckduckgo_pdf_search`, app.py lines 314-340) -/

/-- One parsed `a.result__a` anchor of the result page: its text and its
`href` attribute (`a.get("href", "")`). -/
structure DDGAnchor where
  title : String
  href : String

/-- The collection loop of `duckduckgo_pdf_search`: normalize each href,
skip empty links, stop once `max_results` are collected. -/
def collectResults (normalize : String → String) (maxr : Nat) :
    List DDGAnchor → List (String × String) → List (String × String)
  | [], acc => acc
  | a :: rest, acc =>
    let link := normalize a.href
    if link = "" then collectResults normalize maxr rest acc
    else
      let acc' := acc ++ [(a.title, link)]
      if maxr ≤ acc'.length then acc' else collectResults normalize maxr rest acc'

/-- The de-duplication loop of `duckduckgo_pdf_search`: keep the first
result for each url. -/
def dedupeByUrl : List (String × String) → List String → List (String × String)
  | [], _ => []
  | r :: rest, seen =>
    if r.2 ∈ seen then dedupeByUrl rest seen
    else r :: dedupeByUrl rest (r.2 :: seen)

/-- `duckduckgo_pdf_search` (app.py lines 314-340).  The network fetch and
the HTML parse are external collaborators: `fetched` is the anchor list
extracted from a successful response, `none` a network error or non-2xx
status (`requests.get`/`raise_for_status` raise, and the function has no
handler, so the exception escapes — outer `none`).  `normalize` stands for
`_normalize_ddg_url`, which rewrites a ddg redirect href to its target. -/
def duckduckgo_pdf_search (normalize : String → String)
    (fetched : Option (List DDGAnchor)) (max_results : Nat) :
    Option (List (String × String)) :=
  match fetched with
  | none => none
  | some anchors =>
    let results := collectResults normalize max_results anchors []
    some ((dedupeByUrl results []).take max_results)

/-! ## Basic lemmas about the ordered-dict operations -/

theorem olookup_oset_self (kvs : List (String × JVal)) (k : String) (v : JVal) :
    olookup (oset kvs k v) k = some v := by
  induction kvs with
  | nil => simp [oset, olookup]
  | cons kv rest ih =>
    obtain ⟨k', v'⟩ := kv
    by_cases h : k' = k
    · simp [oset, olookup, h]
    · simp [oset, olookup, h, ih]

theorem olookup_oset_ne (kvs : List (String × JVal)) (k k2 : String) (v : JVal)
    (h : k2 ≠ k) : olookup (oset kvs k v) k2 = olookup kvs k2 := by
  have hne : ¬ k = k2 := fun hh => h hh.symm
  induction kvs with
  | nil => simp [oset, olookup, hne]
  | cons kv rest ih =>
    obtain ⟨k', v'⟩ := kv
    by_cases hk : k' = k
    · subst hk
      simp [oset, olookup, hne]
    · simp [oset, olookup, hk, ih]

theorem oset_of_lookup_eq (kvs : List (String × JVal)) (k : String) (v : JVal)
    (h : olookup kvs k = some v) : oset kvs k v = kvs := by
  induction kvs with
  | nil => simp [olookup] at h
  | cons kv rest ih =>
    obtain ⟨k', v'⟩ := kv
    by_cases hk : k' = k
    · simp [olookup, hk] at h
      simp [oset, hk, h]
    · simp [olookup, hk] at h
      simp [oset, hk, ih h]

theorem osetdefault_of_isSome (kvs : List (String × JVal)) (k : String) (v : JVal)
    (h : (olookup kvs k).isSome) : osetdefault kvs k v = kvs := by
  simp [osetdefault, h]

theorem olookup_append_of_isSome (l1 l2 : List (String × JVal)) (k : String)
    (h : (olookup l1 k).isSome) : olookup (l1 ++ l2) k = olookup l1 k := by
  induction l1 with
  | nil => simp [olookup] at h
  | cons kv rest ih =>
    obtain ⟨k', v'⟩ := kv
    by_cases hk : k' = k
    · simp [olookup, hk]
    · simp [olookup, hk] at h ⊢
      exact ih h

theorem olookup_append_of_none (l1 l2 : List (String × JVal)) (k : String)
    (h : olookup l1 k = none) : olookup (l1 ++ l2) k = olookup l2 k := by
  induction l1 with
  | nil => simp [olookup]
  | cons kv rest ih =>
    obtain ⟨k', v'⟩ := kv
    by_cases hk : k' = k
    · simp [olookup, hk] at h
    · simp [olookup, hk] at h ⊢
      exact ih h

theorem osetdefault_of_none (kvs : List (String × JVal)) (k : String) (v : JVal)
    (h : olookup kvs k = none) : osetdefault kvs k v = kvs ++ [(k, v)] := by
  simp [osetdefault, h]

theorem isSome_olookup_osetdefault (kvs : List (String × JVal)) (k : String) (v : JVal) :
    (olookup (osetdefault kvs k v) k).isSome := by
  cases hv : olookup kvs k with
  | some v2 => simp [osetdefault_of_isSome kvs k v (by simp [hv]), hv]
  | none =>
    rw [osetdefault_of_none kvs k v hv, olookup_append_of_none _ _ _ hv]
    simp [olookup]

theorem olookup_osetdefault_ne (kvs : List (String × JVal)) (k k2 : String) (v : JVal)
    (h : k2 ≠ k) : olookup (osetdefault kvs k v) k2 = olookup kvs k2 := by
  cases hs : olookup kvs k with
  | some v2 => rw [osetdefault_of_isSome kvs k v (by simp [hs])]
  | none =>
    rw [osetdefault_of_none kvs k v hs]
    cases hv : olookup kvs k2 with
    | some v2 => rw [olookup_append_of_isSome _ _ _ (by simp [hv]), hv]
    | none =>
      rw [olookup_append_of_none _ _ _ hv]
      simp only [olookup]
      rw [if_neg (fun hh => h hh.symm)]

theorem isSome_olookup_oset (kvs : List (String × JVal)) (k k2 : String) (v : JVal)
    (h : (olookup kvs k2).isSome) : (olookup (oset kvs k v) k2).isSome := by
  by_cases hk : k2 = k
  · subst hk; simp [olookup_oset_self]
  · rw [olookup_oset_ne _ _ _ _ hk]; exact h

theorem isSome_olookup_osetdefault_of (kvs : List (String × JVal)) (k k2 : String) (v : JVal)
    (h : (olookup kvs k2).isSome) : (olookup (osetdefault kvs k v) k2).isSome := by
  by_cases hk : k2 = k
  · subst hk; exact isSome_olookup_osetdefault kvs k2 v
  · rw [olookup_osetdefault_ne _ _ _ _ hk]; exact h

/-! ## Lemmas about the string primitives and item construction -/

theorem pyStripData_def (s : String) :
    (pyStrip s).data = List.rdropWhile Char.isWhitespace (s.data.dropWhile Char.isWhitespace) := rfl

theorem dropWhile_cons_eq_false (p : Char → Bool) :
    ∀ (l : List Char) (a : Char) (t : List Char), List.dropWhile p l = a :: t → p a = false := by
  intro l
  induction l with
  | nil => intro a t h; simp [List.dropWhile] at h
  | cons x xs ih =>
    intro a t h
    by_cases hp : p x
    · rw [List.dropWhile_cons_of_pos hp] at h
      exact ih a t h
    · rw [List.dropWhile_cons_of_neg hp] at h
      cases h
      exact Bool.not_eq_true _ |>.mp hp

theorem dropWhile_rdropWhile_dropWhile (p : Char → Bool) (l : List Char) :
    List.dropWhile p (List.rdropWhile p (List.dropWhile p l)) =
      List.rdropWhile p (List.dropWhile p l) := by
  cases hc : List.rdropWhile p (List.dropWhile p l) with
  | nil => rfl
  | cons a t =>
    obtain ⟨u, hu⟩ := List.rdropWhile_prefix p (List.dropWhile p l)
    rw [hc] at hu
    have ha : p a = false :=
      dropWhile_cons_eq_false p l a (t ++ u) (by rw [← hu]; rfl)
    rw [List.dropWhile_cons_of_neg (by simp [ha])]

theorem pyStrip_idem (s : String) : pyStrip (pyStrip s) = pyStrip s := by
  apply String.ext
  rw [pyStripData_def, pyStripData_def, dropWhile_rdropWhile_dropWhile,
    List.rdropWhile_idempotent]

theorem hexDigits_length : ∀ len r, (hexDigits len r).length = len := by
  intro len
  induction len with
  | zero => intro r; rfl
  | succ n ih =>
    intro r
    simp [hexDigits, ih]

theorem mk_data_eq (l : List Char) : (String.mk l).data = l := rfl

theorem uuid_hex10_ne_empty (r : Nat) : uuid_hex10 r ≠ "" := by
  unfold uuid_hex10
  intro h
  rw [String.ext_iff, mk_data_eq, show "".data = [] from rfl] at h
  have hlen := congrArg List.length h
  rw [List.length_take, hexDigits_length] at hlen
  simp at hlen

/-- Field access on an item dict. -/
def itemField (it : JVal) (k : String) : Option JVal :=
  match it with
  | .jobj kvs => olookup kvs k
  | _ => none

theorem isTextDict_new_item (r : Nat) (n t p l : String) :
    isTextDict (new_item r n t p l) = true := rfl

theorem new_item_text (r : Nat) (n t p l : String) :
    itemField (new_item r n t p l) "text" = some (.jstr (pyStrip t)) := rfl

theorem new_item_done (r : Nat) (n t p l : String) :
    itemField (new_item r n t p l) "done" = some (.jbool false) := rfl

theorem new_item_priority (r : Nat) (n t p l : String) :
    itemField (new_item r n t p l) "priority" = some (.jstr p) := rfl

theorem new_item_id (r : Nat) (n t p l : String) :
    itemField (new_item r n t p l) "id" = some (.jstr (uuid_hex10 r)) := rfl

/-! ## Lemmas about `migrate_list_to_items` -/

/-- The entries the string-conversion loop keeps: non-blank plain strings. -/
def strEntryKeep : JVal → Option String
  | .jstr s => if pyStrip s = "" then none else some s
  | _ => none

theorem convert_strings_text (rand : Nat → Nat) (now : String) :
    ∀ (xs : List JVal) (ctr : Nat),
      ((convert_strings rand now ctr xs).1).map (fun it => itemField it "text") =
        (xs.filterMap strEntryKeep).map (fun s => some (JVal.jstr (pyStrip s))) := by
  intro xs
  induction xs with
  | nil => intro ctr; rfl
  | cons x rest ih =>
    intro ctr
    cases x with
    | jstr s =>
      by_cases hb : pyStrip s = ""
      · simp only [convert_strings, hb, if_true, List.filterMap_cons, strEntryKeep, if_pos hb]
        exact ih ctr
      · simp only [convert_strings, hb, if_false, List.filterMap_cons, strEntryKeep,
          if_neg hb, List.map_cons, new_item_text, pyStrip_idem]
        rw [ih (ctr + 1)]
    | jnull => simpa [convert_strings, strEntryKeep] using ih ctr
    | jbool b => simpa [convert_strings, strEntryKeep] using ih ctr
    | jnum m => simpa [convert_strings, strEntryKeep] using ih ctr
    | jarr l => simpa [convert_strings, strEntryKeep] using ih ctr
    | jobj kvs => simpa [convert_strings, strEntryKeep] using ih ctr

theorem convert_strings_items (rand : Nat → Nat) (now : String) :
    ∀ (xs : List JVal) (ctr : Nat) (it : JVal), it ∈ (convert_strings rand now ctr xs).1 →
      ∃ r s, it = new_item r now s "Medium" "" := by
  intro xs
  induction xs with
  | nil => intro ctr it h; simp [convert_strings] at h
  | cons x rest ih =>
    intro ctr it h
    cases x with
    | jstr s =>
      by_cases hb : pyStrip s = ""
      · simp only [convert_strings, hb, if_true] at h
        exact ih ctr it h
      · simp only [convert_strings, hb, if_false, List.mem_cons] at h
        rcases h with h | h
        · exact ⟨rand ctr, pyStrip s, h⟩
        · exact ih (ctr + 1) it h
    | jnull => simp only [convert_strings] at h; exact ih ctr it h
    | jbool b => simp only [convert_strings] at h; exact ih ctr it h
    | jnum m => simp only [convert_strings] at h; exact ih ctr it h
    | jarr l => simp only [convert_strings] at h; exact ih ctr it h
    | jobj kvs => simp only [convert_strings] at h; exact ih ctr it h

/-- Running `migrate_list_to_items` on its own output is the identity (the
already-migrated fast path): the key step of migration idempotence. -/
theorem migrate_list_fix (rand : Nat → Nat) (now : String) (c : Nat) (v : JVal)
    (rand' : Nat → Nat) (now' : String) (c' : Nat) :
    migrate_list_to_items rand' now' c' (migrate_list_to_items rand now c v).1 =
      ((migrate_list_to_items rand now c v).1, c') := by
  cases v with
  | jarr xs =>
    cases xs with
    | nil => rfl
    | cons x rest =>
      by_cases hx : isTextDict x
      · simp only [migrate_list_to_items, hx, if_true]
      · cases hout : (convert_strings rand now c (x :: rest)).1 with
        | nil =>
          have h1 : (migrate_list_to_items rand now c (JVal.jarr (x :: rest))).1 =
              JVal.jarr [] := by
            simp [migrate_list_to_items, hx, hout]
          rw [h1]
          rfl
        | cons y ys =>
          have hy : y ∈ (convert_strings rand now c (x :: rest)).1 := by
            rw [hout]; exact List.mem_cons_self _ _
          obtain ⟨r, s, hys⟩ := convert_strings_items rand now (x :: rest) c y hy
          have hyt : isTextDict y = true := by rw [hys]; exact isTextDict_new_item _ _ _ _ _
          have h1 : (migrate_list_to_items rand now c (JVal.jarr (x :: rest))).1 =
              JVal.jarr (y :: ys) := by
            simp [migrate_list_to_items, hx, hout]
          rw [h1]
          simp [migrate_list_to_items, hyt]
  | jnull => rfl
  | jbool b => rfl
  | jnum m => rfl
  | jstr s => rfl
  | jobj kvs => rfl

/-! ## The migrated-site invariant and idempotence of the site loop -/

/-- A value on which `migrate_list_to_items` is the identity (consuming no
uuid draws): satisfied by every output of `migrate_list_to_items`. -/
def MLFixed (v : JVal) : Prop :=
  ∀ (rand : Nat → Nat) (now : String) (c : Nat), migrate_list_to_items rand now c v = (v, c)

theorem MLFixed_migrate_list (rand : Nat → Nat) (now : String) (c : Nat) (v : JVal) :
    MLFixed (migrate_list_to_items rand now c v).1 :=
  fun rand' now' c' => migrate_list_fix rand now c v rand' now' c'

/-- A list fixed under `migrate_list_to_items` is empty or headed by a dict
with a `text` key: were the head not a text-dict, the string-conversion
branch would run, and its output's head (if any) is a `new_item`, hence a
text-dict — contradicting fixedness. -/
theorem MLFixed_head_shape (l : List JVal) (h : MLFixed (.jarr l)) :
    l = [] ∨ ∃ hd tl, l = hd :: tl ∧ isTextDict hd = true := by
  cases l with
  | nil => exact Or.inl rfl
  | cons x xs =>
    refine Or.inr ⟨x, xs, rfl, ?_⟩
    by_contra hx
    have hxf : isTextDict x = false := by
      cases hxx : isTextDict x
      · rfl
      · exact absurd hxx hx
    have hfix := h (fun _ => 0) "" 0
    simp only [migrate_list_to_items, hxf, Bool.false_eq_true, if_false, Prod.mk.injEq,
      JVal.jarr.injEq] at hfix
    obtain ⟨h1, _⟩ := hfix
    have hxmem : x ∈ (convert_strings (fun _ => 0) "" 0 (x :: xs)).1 := by
      rw [h1]; exact List.mem_cons_self _ _
    obtain ⟨r, s, hxs⟩ := convert_strings_items (fun _ => 0) "" (x :: xs) 0 x hxmem
    rw [hxs, isTextDict_new_item] at hxf
    cases hxf

theorem mirror_photos_post : ∀ (ps : List JVal) (sp sp' : List (String × JVal)),
    mirror_photos ps sp = some sp' →
    (∀ k, (olookup sp k).isSome → (olookup sp' k).isSome) ∧
    (∀ g, olookup sp "general" = some g →
      ∃ g', olookup sp' "general" = some g' ∧
        (∀ p, pyMem p g = some true → pyMem p g' = some true) ∧
        (∀ p ∈ ps, pyMem p g' = some true)) := by
  intro ps
  induction ps with
  | nil =>
    intro sp sp' h
    simp only [mirror_photos] at h
    cases h
    exact ⟨fun k hk => hk, fun g hg => ⟨g, hg, fun p hp => hp, by simp⟩⟩
  | cons p rest ih =>
    intro sp sp' h
    cases hg0 : olookup sp "general" with
    | none => simp [mirror_photos, hg0] at h
    | some g0 =>
      cases hm : pyMem p g0 with
      | none => simp [mirror_photos, hg0, hm] at h
      | some b =>
        cases b with
        | true =>
          have h2 : mirror_photos rest sp = some sp' := by
            simpa [mirror_photos, hg0, hm] using h
          obtain ⟨hkeys, hgen⟩ := ih sp sp' h2
          refine ⟨hkeys, fun g hg => ?_⟩
          cases hg
          obtain ⟨g', hgl, hmono, hrest⟩ := hgen g0 hg0
          refine ⟨g', hgl, hmono, ?_⟩
          intro q hq
          rcases List.mem_cons.mp hq with hq | hq
          · subst hq; exact hmono q hm
          · exact hrest q hq
        | false =>
          cases hap : pyAppend g0 p with
          | none => simp [mirror_photos, hg0, hm, hap] at h
          | some g2 =>
            have h2 : mirror_photos rest (oset sp "general" g2) = some sp' := by
              simpa [mirror_photos, hg0, hm, hap] using h
            obtain ⟨hkeys, hgen⟩ := ih (oset sp "general" g2) sp' h2
            obtain ⟨xs, hxs⟩ : ∃ xs, g0 = JVal.jarr xs := by
              cases g0 with
              | jarr xs => exact ⟨xs, rfl⟩
              | jnull => simp [pyAppend] at hap
              | jbool b => simp [pyAppend] at hap
              | jnum m => simp [pyAppend] at hap
              | jstr s => simp [pyAppend] at hap
              | jobj kvs => simp [pyAppend] at hap
            subst hxs
            have hg2 : g2 = JVal.jarr (xs ++ [p]) := by
              simp only [pyAppend, Option.some_inj] at hap
              exact hap.symm
            subst hg2
            have hmono0 : ∀ q, pyMem q (JVal.jarr xs) = some true →
                pyMem q (JVal.jarr (xs ++ [p])) = some true := by
              intro q hq
              simp only [pyMem, Option.some_inj, decide_eq_true_eq] at hq ⊢
              exact List.mem_append_left _ hq
            refine ⟨fun k hk => hkeys k (isSome_olookup_oset _ _ _ _ hk), fun g hg => ?_⟩
            cases hg
            obtain ⟨g', hgl, hmono2, hrest⟩ :=
              hgen (JVal.jarr (xs ++ [p])) (olookup_oset_self sp "general" _)
            refine ⟨g', hgl, fun q hq => hmono2 q (hmono0 q hq), ?_⟩
            intro q hq
            rcases List.mem_cons.mp hq with hq | hq
            · subst hq
              apply hmono2
              simp [pyMem]
            · exact hrest q hq

theorem mirror_photos_noop : ∀ (ps : List JVal) (sp : List (String × JVal)) (g : JVal),
    olookup sp "general" = some g → (∀ p ∈ ps, pyMem p g = some true) →
    mirror_photos ps sp = some sp := by
  intro ps
  induction ps with
  | nil => intro sp g hg hp; rfl
  | cons p rest ih =>
    intro sp g hg hp
    simp only [mirror_photos, hg, hp p (List.mem_cons_self _ _)]
    exact ih sp g hg (fun q hq => hp q (List.mem_cons_of_mem _ hq))

theorem site_defaults_created (n : String) (site : List (String × JVal)) :
    (olookup (site_defaults n site) "created_at").isSome := by
  unfold site_defaults
  apply isSome_olookup_osetdefault_of
  apply isSome_olookup_osetdefault_of
  exact isSome_olookup_osetdefault _ _ _

theorem site_defaults_notes (n : String) (site : List (String × JVal)) :
    (olookup (site_defaults n site) "notes").isSome := by
  unfold site_defaults
  apply isSome_olookup_osetdefault_of
  exact isSome_olookup_osetdefault _ _ _

theorem site_defaults_photos (n : String) (site : List (String × JVal)) :
    (olookup (site_defaults n site) "photos").isSome :=
  isSome_olookup_osetdefault _ _ _

theorem site_defaults_of_fixed (n : String) (site : List (String × JVal))
    (h1 : (olookup site "created_at").isSome) (h2 : (olookup site "notes").isSome)
    (h3 : (olookup site "photos").isSome) : site_defaults n site = site := by
  unfold site_defaults
  rw [osetdefault_of_isSome _ _ _ h1, osetdefault_of_isSome _ _ _ h2,
    osetdefault_of_isSome _ _ _ h3]

theorem migrate_list_is_jarr (rand : Nat → Nat) (n : String) (c : Nat) (v : JVal) :
    ∃ xs, (migrate_list_to_items rand n c v).1 = .jarr xs := by
  cases v with
  | jarr l =>
    cases l with
    | nil => exact ⟨[], rfl⟩
    | cons x xs =>
      by_cases hx : isTextDict x
      · exact ⟨x :: xs, by simp [migrate_list_to_items, hx]⟩
      · exact ⟨(convert_strings rand n c (x :: xs)).1, by simp [migrate_list_to_items, hx]⟩
  | jnull => exact ⟨[], rfl⟩
  | jbool b => exact ⟨[], rfl⟩
  | jnum m => exact ⟨[], rfl⟩
  | jstr s => exact ⟨[], rfl⟩
  | jobj kvs => exact ⟨[], rfl⟩

theorem site_lists_wtd (r : Nat → Nat) (n : String) (c : Nat) (s : List (String × JVal)) :
    ∃ l, olookup (site_lists r n c s).1 "what_to_do" = some (.jarr l) ∧ MLFixed (.jarr l) := by
  simp only [site_lists]
  rw [olookup_oset_ne _ _ _ _ (by decide), olookup_oset_ne _ _ _ _ (by decide),
    olookup_oset_ne _ _ _ _ (by decide), olookup_oset_self]
  obtain ⟨xs, hxs⟩ := migrate_list_is_jarr r n c (ogetD s "what_to_do" (.jarr []))
  exact ⟨xs, by rw [hxs], by rw [← hxs]; exact MLFixed_migrate_list _ _ _ _⟩

theorem site_lists_need (r : Nat → Nat) (n : String) (c : Nat) (s : List (String × JVal)) :
    ∃ l, olookup (site_lists r n c s).1 "materials_need" = some (.jarr l) ∧ MLFixed (.jarr l) := by
  simp only [site_lists]
  rw [olookup_oset_ne _ _ _ _ (by decide), olookup_oset_ne _ _ _ _ (by decide),
    olookup_oset_self]
  obtain ⟨xs, hxs⟩ := migrate_list_is_jarr r n _ _
  exact ⟨xs, by rw [hxs], by rw [← hxs]; exact MLFixed_migrate_list _ _ _ _⟩

theorem site_lists_have (r : Nat → Nat) (n : String) (c : Nat) (s : List (String × JVal)) :
    ∃ l, olookup (site_lists r n c s).1 "materials_have" = some (.jarr l) ∧ MLFixed (.jarr l) := by
  simp only [site_lists]
  rw [olookup_oset_ne _ _ _ _ (by decide), olookup_oset_self]
  obtain ⟨xs, hxs⟩ := migrate_list_is_jarr r n _ _
  exact ⟨xs, by rw [hxs], by rw [← hxs]; exact MLFixed_migrate_list _ _ _ _⟩

theorem site_lists_buy (r : Nat → Nat) (n : String) (c : Nat) (s : List (String × JVal)) :
    ∃ l, olookup (site_lists r n c s).1 "to_buy" = some (.jarr l) ∧ MLFixed (.jarr l) := by
  simp only [site_lists]
  rw [olookup_oset_self]
  obtain ⟨xs, hxs⟩ := migrate_list_is_jarr r n _ _
  exact ⟨xs, by rw [hxs], by rw [← hxs]; exact MLFixed_migrate_list _ _ _ _⟩

theorem site_lists_other (r : Nat → Nat) (n : String) (c : Nat) (s : List (String × JVal))
    (k : String) (h1 : k ≠ "what_to_do") (h2 : k ≠ "materials_need")
    (h3 : k ≠ "materials_have") (h4 : k ≠ "to_buy") :
    olookup (site_lists r n c s).1 k = olookup s k := by
  simp only [site_lists]
  rw [olookup_oset_ne _ _ _ _ h4, olookup_oset_ne _ _ _ _ h3,
    olookup_oset_ne _ _ _ _ h2, olookup_oset_ne _ _ _ _ h1]

theorem ensure_sections_post (s : List (String × JVal)) :
    olookup (ensure_sections s) "section_photos" =
      some (.jobj (sections_of (ensure_sections s))) ∧
    (∀ k, k ≠ "section_photos" → olookup (ensure_sections s) k = olookup s k) := by
  have hfresh : ∀ (t : List (String × JVal)),
      olookup (oset t "section_photos" freshSections) "section_photos" =
        some (.jobj (sections_of (oset t "section_photos" freshSections))) ∧
      (∀ k, k ≠ "section_photos" →
        olookup (oset t "section_photos" freshSections) k = olookup t k) := by
    intro t
    have h1 := olookup_oset_self t "section_photos" freshSections
    constructor
    · rw [h1]
      have h2 : sections_of (oset t "section_photos" freshSections) = freshSectionsKvs := by
        have h1b : olookup (oset t "section_photos" (JVal.jobj freshSectionsKvs))
            "section_photos" = some (JVal.jobj freshSectionsKvs) := olookup_oset_self _ _ _
        simp [sections_of, freshSections, h1b]
      rw [h2]
      rfl
    · intro k hk
      exact olookup_oset_ne _ _ _ _ hk
  cases hsp : olookup s "section_photos" with
  | none => simpa [ensure_sections, hsp] using hfresh s
  | some v =>
    cases v with
    | jobj kvs =>
      constructor
      · simp [ensure_sections, hsp, sections_of]
      · intro k hk
        simp [ensure_sections, hsp]
    | jnull => simpa [ensure_sections, hsp] using hfresh s
    | jbool b => simpa [ensure_sections, hsp] using hfresh s
    | jnum m => simpa [ensure_sections, hsp] using hfresh s
    | jstr str => simpa [ensure_sections, hsp] using hfresh s
    | jarr l => simpa [ensure_sections, hsp] using hfresh s

theorem foldl_osetdefault_preserve (ks : List String) :
    ∀ (sp : List (String × JVal)) (k : String), (olookup sp k).isSome →
      (olookup (ks.foldl (fun acc k2 => osetdefault acc k2 (.jarr [])) sp) k).isSome := by
  induction ks with
  | nil => intro sp k h; exact h
  | cons k0 ks ih =>
    intro sp k h
    exact ih _ k (isSome_olookup_osetdefault_of _ _ _ _ h)

theorem foldl_osetdefault_mem (ks : List String) :
    ∀ (sp : List (String × JVal)) (k : String), k ∈ ks →
      (olookup (ks.foldl (fun acc k2 => osetdefault acc k2 (.jarr [])) sp) k).isSome := by
  induction ks with
  | nil => intro sp k h; cases h
  | cons k0 ks ih =>
    intro sp k h
    rcases List.mem_cons.mp h with h | h
    · subst h
      exact foldl_osetdefault_preserve ks _ k (isSome_olookup_osetdefault _ _ _)
    · exact ih _ k h

theorem foldl_osetdefault_of_fixed (ks : List String) :
    ∀ (sp : List (String × JVal)), (∀ k ∈ ks, (olookup sp k).isSome) →
      ks.foldl (fun acc k2 => osetdefault acc k2 (.jarr [])) sp = sp := by
  induction ks with
  | nil => intro sp _; rfl
  | cons k0 ks ih =>
    intro sp h
    simp only [List.foldl_cons]
    rw [osetdefault_of_isSome _ _ _ (h k0 (List.mem_cons_self _ _))]
    exact ih sp (fun k hk => h k (List.mem_cons_of_mem _ hk))

/-- The invariant established by one pass of the site loop: exactly what is
needed for a second pass to be the identity. -/
structure SiteFixed (s : List (String × JVal)) : Prop where
  created : (olookup s "created_at").isSome
  notesKey : (olookup s "notes").isSome
  photosKey : (olookup s "photos").isSome
  wtd : ∃ l, olookup s "what_to_do" = some (.jarr l) ∧ MLFixed (.jarr l)
  mneed : ∃ l, olookup s "materials_need" = some (.jarr l) ∧ MLFixed (.jarr l)
  mhave : ∃ l, olookup s "materials_have" = some (.jarr l) ∧ MLFixed (.jarr l)
  tobuy : ∃ l, olookup s "to_buy" = some (.jarr l) ∧ MLFixed (.jarr l)
  sections : ∃ sp, olookup s "section_photos" = some (.jobj sp) ∧
    (∀ k ∈ sectionKeys, (olookup sp k).isSome) ∧
    ((ogetD s "photos" .jnull).truthy = true →
      ∃ ps, jIterElems (ogetD s "photos" .jnull) = some ps ∧
        ∃ g, olookup sp "general" = some g ∧ ∀ p ∈ ps, pyMem p g = some true)

theorem ogetD_congr (a b : List (String × JVal)) (k : String) (d : JVal)
    (h : olookup a k = olookup b k) : ogetD a k d = ogetD b k d := by
  unfold ogetD
  rw [h]

theorem migrate_site_fixed (r : Nat → Nat) (n : String) (c : Nat)
    (site s : List (String × JVal)) (c2 : Nat)
    (h : migrate_site r n c site = some (s, c2)) : SiteFixed s := by
  simp only [migrate_site] at h
  set s0 := (site_lists r n c (site_defaults n site)).1 with hs0
  set s8 := ensure_sections s0 with hs8
  set sp2 := sectionKeys.foldl (fun acc k => osetdefault acc k (.jarr [])) (sections_of s8)
    with hsp2
  set s9 := oset s8 "section_photos" (.jobj sp2) with hs9
  have F1 : olookup s9 "section_photos" = some (.jobj sp2) := by
    rw [hs9]; exact olookup_oset_self _ _ _
  have F2 : ∀ k, k ≠ "section_photos" → olookup s9 k = olookup s0 k := by
    intro k hk
    rw [hs9, olookup_oset_ne _ _ _ _ hk, hs8]
    exact (ensure_sections_post s0).2 k hk
  have F3 : ∀ k, k ∈ sectionKeys → (olookup sp2 k).isSome := by
    intro k hk
    rw [hsp2]
    exact foldl_osetdefault_mem sectionKeys _ k hk
  have Fc : (olookup s9 "created_at").isSome := by
    rw [F2 _ (by decide), hs0,
      site_lists_other r n c _ _ (by decide) (by decide) (by decide) (by decide)]
    exact site_defaults_created n site
  have Fn : (olookup s9 "notes").isSome := by
    rw [F2 _ (by decide), hs0,
      site_lists_other r n c _ _ (by decide) (by decide) (by decide) (by decide)]
    exact site_defaults_notes n site
  have Fp : (olookup s9 "photos").isSome := by
    rw [F2 _ (by decide), hs0,
      site_lists_other r n c _ _ (by decide) (by decide) (by decide) (by decide)]
    exact site_defaults_photos n site
  have Fw : ∃ l, olookup s9 "what_to_do" = some (.jarr l) ∧ MLFixed (.jarr l) := by
    rw [F2 _ (by decide), hs0]; exact site_lists_wtd r n c _
  have Fmn : ∃ l, olookup s9 "materials_need" = some (.jarr l) ∧ MLFixed (.jarr l) := by
    rw [F2 _ (by decide), hs0]; exact site_lists_need r n c _
  have Fmh : ∃ l, olookup s9 "materials_have" = some (.jarr l) ∧ MLFixed (.jarr l) := by
    rw [F2 _ (by decide), hs0]; exact site_lists_have r n c _
  have Fb : ∃ l, olookup s9 "to_buy" = some (.jarr l) ∧ MLFixed (.jarr l) := by
    rw [F2 _ (by decide), hs0]; exact site_lists_buy r n c _
  by_cases htr : (ogetD s9 "photos" .jnull).truthy = true
  · rw [if_pos htr] at h
    cases hit : jIterElems (ogetD s9 "photos" .jnull) with
    | none => simp [hit] at h
    | some ps =>
      cases hmr : mirror_photos ps sp2 with
      | none => simp [hit, hmr] at h
      | some sp3 =>
        simp only [hit, hmr, Option.some_inj, Prod.mk.injEq] at h
        obtain ⟨hX, hY⟩ := h
        subst hX
        obtain ⟨hkeys3, hgen3⟩ := mirror_photos_post ps sp2 sp3 hmr
        have G2 : ∀ k, k ≠ "section_photos" →
            olookup (oset s9 "section_photos" (.jobj sp3)) k = olookup s9 k :=
          fun k hk => olookup_oset_ne _ _ _ _ hk
        have hog : ogetD (oset s9 "section_photos" (.jobj sp3)) "photos" .jnull =
            ogetD s9 "photos" .jnull :=
          ogetD_congr _ _ _ _ (G2 _ (by decide))
        refine ⟨?_, ?_, ?_, ?_, ?_, ?_, ?_, ?_⟩
        · rw [G2 _ (by decide)]; exact Fc
        · rw [G2 _ (by decide)]; exact Fn
        · rw [G2 _ (by decide)]; exact Fp
        · rw [G2 _ (by decide)]; exact Fw
        · rw [G2 _ (by decide)]; exact Fmn
        · rw [G2 _ (by decide)]; exact Fmh
        · rw [G2 _ (by decide)]; exact Fb
        · refine ⟨sp3, olookup_oset_self _ _ _, fun k hk => hkeys3 k (F3 k hk), ?_⟩
          rw [hog]
          intro _
          refine ⟨ps, hit, ?_⟩
          obtain ⟨g0, hg0⟩ := Option.isSome_iff_exists.mp (F3 "general" (by decide))
          obtain ⟨g', hgl, _, hall⟩ := hgen3 g0 hg0
          exact ⟨g', hgl, hall⟩
  · rw [if_neg htr] at h
    rw [Option.some_inj, Prod.mk.injEq] at h
    obtain ⟨hX, hY⟩ := h
    subst hX
    refine ⟨Fc, Fn, Fp, Fw, Fmn, Fmh, Fb, ⟨sp2, F1, F3, ?_⟩⟩
    intro htr2
    exact absurd htr2 htr

theorem siteFixed_migrate_site (s : List (String × JVal)) (hf : SiteFixed s)
    (r : Nat → Nat) (n : String) (c : Nat) :
    migrate_site r n c s = some (s, c) := by
  obtain ⟨hc, hn, hp, ⟨l1, hl1, hfix1⟩, ⟨l2, hl2, hfix2⟩, ⟨l3, hl3, hfix3⟩,
    ⟨l4, hl4, hfix4⟩, ⟨sp, hsp, hkeys, hph⟩⟩ := hf
  have e1 : ogetD s "what_to_do" (.jarr []) = .jarr l1 := by unfold ogetD; rw [hl1]; rfl
  have e2 : ogetD s "materials_need" (.jarr []) = .jarr l2 := by unfold ogetD; rw [hl2]; rfl
  have e3 : ogetD s "materials_have" (.jarr []) = .jarr l3 := by unfold ogetD; rw [hl3]; rfl
  have e4 : ogetD s "to_buy" (.jarr []) = .jarr l4 := by unfold ogetD; rw [hl4]; rfl
  have o1 : oset s "what_to_do" (.jarr l1) = s := oset_of_lookup_eq _ _ _ hl1
  have o2 : oset s "materials_need" (.jarr l2) = s := oset_of_lookup_eq _ _ _ hl2
  have o3 : oset s "materials_have" (.jarr l3) = s := oset_of_lookup_eq _ _ _ hl3
  have o4 : oset s "to_buy" (.jarr l4) = s := oset_of_lookup_eq _ _ _ hl4
  have hlists : site_lists r n c s = (s, c) := by
    simp only [site_lists]
    rw [e1, hfix1 r n c]
    dsimp only
    rw [o1, e2, hfix2 r n c]
    dsimp only
    rw [o2, e3, hfix3 r n c]
    dsimp only
    rw [o3, e4, hfix4 r n c]
    dsimp only
    rw [o4]
  have hd : site_defaults n s = s := site_defaults_of_fixed n s hc hn hp
  have he : ensure_sections s = s := by simp [ensure_sections, hsp]
  have hsec : sections_of s = sp := by simp [sections_of, hsp]
  have hfold : sectionKeys.foldl (fun acc k => osetdefault acc k (.jarr [])) sp = sp :=
    foldl_osetdefault_of_fixed sectionKeys sp hkeys
  have ho : oset s "section_photos" (.jobj sp) = s := oset_of_lookup_eq _ _ _ hsp
  simp only [migrate_site, hd, hlists]
  rw [he, hsec, hfold, ho]
  cases htr : (ogetD s "photos" .jnull).truthy with
  | false => simp [htr]
  | true =>
    obtain ⟨ps, hit, g, hg, hall⟩ := hph htr
    simp [htr, hit, mirror_photos_noop ps sp g hg hall, ho]

theorem migrate_sites_fixed (r : Nat → Nat) (n : String) :
    ∀ (sites : List (String × JVal)) (ctr : Nat) (sites' : List (String × JVal)) (c' : Nat),
      migrate_sites r n ctr sites = some (sites', c') →
      ∀ nm kvs, (nm, JVal.jobj kvs) ∈ sites' → SiteFixed kvs := by
  intro sites
  induction sites with
  | nil =>
    intro ctr sites' c' h nm kvs hm
    simp only [migrate_sites, Option.some_inj, Prod.mk.injEq] at h
    obtain ⟨h1, _⟩ := h
    rw [← h1] at hm
    cases hm
  | cons entry rest ih =>
    obtain ⟨name, v0⟩ := entry
    intro ctr sites' c' h nm kvs hm
    cases v0 with
    | jobj site =>
      cases hms : migrate_site r n ctr site with
      | none => simp [migrate_sites, hms] at h
      | some pr =>
        obtain ⟨site', c1⟩ := pr
        cases hrest : migrate_sites r n c1 rest with
        | none => simp [migrate_sites, hms, hrest] at h
        | some pr2 =>
          obtain ⟨rest', c2⟩ := pr2
          simp only [migrate_sites, hms, hrest, Option.some_inj, Prod.mk.injEq] at h
          obtain ⟨h1, _⟩ := h
          rw [← h1] at hm
          rcases List.mem_cons.mp hm with hm | hm
          · have hv : JVal.jobj kvs = JVal.jobj site' := congrArg Prod.snd hm
            have hkv : kvs = site' := JVal.jobj.inj hv
            subst hkv
            exact migrate_site_fixed r n ctr site kvs c1 hms
          · exact ih c1 rest' c2 hrest nm kvs hm
    | jnull =>
      cases hrest : migrate_sites r n ctr rest with
      | none => simp [migrate_sites, hrest] at h
      | some pr2 =>
        obtain ⟨rest', c2⟩ := pr2
        simp only [migrate_sites, hrest, Option.some_inj, Prod.mk.injEq] at h
        obtain ⟨h1, _⟩ := h
        rw [← h1] at hm
        rcases List.mem_cons.mp hm with hm | hm
        · exact absurd (congrArg Prod.snd hm) (by simp)
        · exact ih ctr rest' c2 hrest nm kvs hm
    | jbool b =>
      cases hrest : migrate_sites r n ctr rest with
      | none => simp [migrate_sites, hrest] at h
      | some pr2 =>
        obtain ⟨rest', c2⟩ := pr2
        simp only [migrate_sites, hrest, Option.some_inj, Prod.mk.injEq] at h
        obtain ⟨h1, _⟩ := h
        rw [← h1] at hm
        rcases List.mem_cons.mp hm with hm | hm
        · exact absurd (congrArg Prod.snd hm) (by simp)
        · exact ih ctr rest' c2 hrest nm kvs hm
    | jnum m =>
      cases hrest : migrate_sites r n ctr rest with
      | none => simp [migrate_sites, hrest] at h
      | some pr2 =>
        obtain ⟨rest', c2⟩ := pr2
        simp only [migrate_sites, hrest, Option.some_inj, Prod.mk.injEq] at h
        obtain ⟨h1, _⟩ := h
        rw [← h1] at hm
        rcases List.mem_cons.mp hm with hm | hm
        · exact absurd (congrArg Prod.snd hm) (by simp)
        · exact ih ctr rest' c2 hrest nm kvs hm
    | jstr str =>
      cases hrest : migrate_sites r n ctr rest with
      | none => simp [migrate_sites, hrest] at h
      | some pr2 =>
        obtain ⟨rest', c2⟩ := pr2
        simp only [migrate_sites, hrest, Option.some_inj, Prod.mk.injEq] at h
        obtain ⟨h1, _⟩ := h
        rw [← h1] at hm
        rcases List.mem_cons.mp hm with hm | hm
        · exact absurd (congrArg Prod.snd hm) (by simp)
        · exact ih ctr rest' c2 hrest nm kvs hm
    | jarr l =>
      cases hrest : migrate_sites r n ctr rest with
      | none => simp [migrate_sites, hrest] at h
      | some pr2 =>
        obtain ⟨rest', c2⟩ := pr2
        simp only [migrate_sites, hrest, Option.some_inj, Prod.mk.injEq] at h
        obtain ⟨h1, _⟩ := h
        rw [← h1] at hm
        rcases List.mem_cons.mp hm with hm | hm
        · exact absurd (congrArg Prod.snd hm) (by simp)
        · exact ih ctr rest' c2 hrest nm kvs hm

theorem fixedSites_migrate_sites (r : Nat → Nat) (n : String) :
    ∀ (sites : List (String × JVal)),
      (∀ nm kvs, (nm, JVal.jobj kvs) ∈ sites → SiteFixed kvs) →
      ∀ c, migrate_sites r n c sites = some (sites, c) := by
  intro sites
  induction sites with
  | nil => intro _ c; rfl
  | cons entry rest ih =>
    obtain ⟨name, v0⟩ := entry
    intro hall c
    have hrest : migrate_sites r n c rest = some (rest, c) :=
      ih (fun nm kvs hm => hall nm kvs (List.mem_cons_of_mem _ hm)) c
    cases v0 with
    | jobj site =>
      have hsf : SiteFixed site := hall name site (List.mem_cons_self _ _)
      simp [migrate_sites, siteFixed_migrate_site site hsf r n c, hrest]
    | jnull => simp [migrate_sites, hrest]
    | jbool b => simp [migrate_sites, hrest]
    | jnum m => simp [migrate_sites, hrest]
    | jstr str => simp [migrate_sites, hrest]
    | jarr l => simp [migrate_sites, hrest]

theorem default_db_fix (r : Nat → Nat) (n now : String) :
    migrate_db r n (default_db now) = some (default_db now, [default_db now]) := by
  rfl

theorem migrate_out_fix (r : Nat → Nat) (n : String) (kvs3 sites' : List (String × JVal))
    (hv : (olookup kvs3 "version").isSome)
    (ha : olookup kvs3 "app_version" = some (.jstr APP_VERSION))
    (hfix : ∀ nm kvs, (nm, JVal.jobj kvs) ∈ sites' → SiteFixed kvs) :
    migrate_db r n (.jobj (oset kvs3 "job_sites" (.jobj sites'))) =
      some (.jobj (oset kvs3 "job_sites" (.jobj sites')),
        [.jobj (oset kvs3 "job_sites" (.jobj sites'))]) := by
  set kvsE := oset kvs3 "job_sites" (.jobj sites') with hE
  have hjsE : olookup kvsE "job_sites" = some (.jobj sites') := by
    rw [hE]; exact olookup_oset_self _ _ _
  have hvE : (olookup kvsE "version").isSome := by
    rw [hE]; exact isSome_olookup_oset _ _ _ _ hv
  have haE : olookup kvsE "app_version" = some (.jstr APP_VERSION) := by
    rw [hE, olookup_oset_ne _ _ _ _ (by decide)]; exact ha
  simp only [migrate_db]
  rw [show ensure_job_sites kvsE = kvsE from by simp [ensure_job_sites, hjsE]]
  rw [osetdefault_of_isSome _ _ _ hvE, oset_of_lookup_eq _ _ _ haE]
  rw [show job_sites_of kvsE = sites' from by simp [job_sites_of, hjsE]]
  rw [fixedSites_migrate_sites r n sites' hfix 0]
  simp only [oset_of_lookup_eq _ _ _ hjsE]

theorem migrate_db_fix (r : Nat → Nat) (n : String) (D E : JVal) (w : List JVal)
    (h : migrate_db r n D = some (E, w)) (r' : Nat → Nat) (n' : String) :
    migrate_db r' n' E = some (E, [E]) := by
  cases D with
  | jobj kvs =>
    simp only [migrate_db] at h
    split at h
    · cases h
    · rename_i sites' cfin heq
      rw [Option.some_inj, Prod.mk.injEq] at h
      obtain ⟨h1, _⟩ := h
      subst h1
      apply migrate_out_fix
      · apply isSome_olookup_oset
        exact isSome_olookup_osetdefault _ _ _
      · exact olookup_oset_self _ _ _
      · exact migrate_sites_fixed r n _ 0 sites' cfin heq
  | jnull =>
    simp only [migrate_db, Option.some_inj, Prod.mk.injEq] at h
    obtain ⟨h1, _⟩ := h
    subst h1
    exact default_db_fix r' n' n
  | jbool b =>
    simp only [migrate_db, Option.some_inj, Prod.mk.injEq] at h
    obtain ⟨h1, _⟩ := h
    subst h1
    exact default_db_fix r' n' n
  | jnum m =>
    simp only [migrate_db, Option.some_inj, Prod.mk.injEq] at h
    obtain ⟨h1, _⟩ := h
    subst h1
    exact default_db_fix r' n' n
  | jstr str =>
    simp only [migrate_db, Option.some_inj, Prod.mk.injEq] at h
    obtain ⟨h1, _⟩ := h
    subst h1
    exact default_db_fix r' n' n
  | jarr l =>
    simp only [migrate_db, Option.some_inj, Prod.mk.injEq] at h
    obtain ⟨h1, _⟩ := h
    subst h1
    exact default_db_fix r' n' n

theorem olookup_osetdefault_self (kvs : List (String × JVal)) (k : String) (v : JVal) :
    olookup (osetdefault kvs k v) k = some ((olookup kvs k).getD v) := by
  cases hm : olookup kvs k with
  | some v2 => rw [osetdefault_of_isSome _ _ _ (by simp [hm]), hm]; rfl
  | none =>
    rw [osetdefault_of_none _ _ _ hm, olookup_append_of_none _ _ _ hm]
    simp [olookup]

theorem ensure_job_sites_other (kvs : List (String × JVal)) (k : String)
    (hk : k ≠ "job_sites") : olookup (ensure_job_sites kvs) k = olookup kvs k := by
  cases h : olookup kvs "job_sites" with
  | none => simp only [ensure_job_sites, h]; exact olookup_oset_ne _ _ _ _ hk
  | some v =>
    cases v with
    | jobj kvs2 => simp [ensure_job_sites, h]
    | jnull => simp only [ensure_job_sites, h]; exact olookup_oset_ne _ _ _ _ hk
    | jbool b => simp only [ensure_job_sites, h]; exact olookup_oset_ne _ _ _ _ hk
    | jnum m => simp only [ensure_job_sites, h]; exact olookup_oset_ne _ _ _ _ hk
    | jstr s => simp only [ensure_job_sites, h]; exact olookup_oset_ne _ _ _ _ hk
    | jarr l => simp only [ensure_job_sites, h]; exact olookup_oset_ne _ _ _ _ hk

/-- Field access on a (dict-shaped) Database Root. -/
def rootField (v : JVal) (k : String) : Option JVal :=
  match v with
  | .jobj kvs => olookup kvs k
  | _ => none

/-! ## Claim C1 -/

/-- Claim C1: migration is idempotent.  If the Migration Engine produced
`E` from any document `D` (with any uuid draws and clock readings), then
running it again on `E` — with arbitrary fresh draws and clock — returns
`E` itself, structurally identical including the restamped `version` and
`app_version` fields (they are restamped with the same constant values), and
persists that unchanged root.  This is exact equality, which is stronger
than the claimed equality modulo the two metadata fields. -/
theorem migration_idempotent (rand : Nat → Nat) (now : String) (D E : JVal)
    (w : List JVal) (rand' : Nat → Nat) (now' : String)
    (h : migrate_db rand now D = some (E, w)) :
    migrate_db rand' now' E = some (E, [E]) :=
  migrate_db_fix rand now D E w h rand' now'

/-- An old-shape persisted document: one site with a flat string task list. -/
def exSiteRaw : JVal :=
  .jobj [("job_sites", .jobj [("Site A", .jobj [("what_to_do", .jarr [.jstr "Buy wire"])])])]

/-- The Item that migrating `exSiteRaw` creates from `"Buy wire"` with uuid
stream `fun _ => 0` and clock `"T1"`. -/
def exItem : JVal :=
  .jobj [("id", .jstr "0000000000"), ("text", .jstr "Buy wire"), ("done", .jbool false),
         ("priority", .jstr "Medium"), ("link", .jstr ""), ("created_at", .jstr "T1")]

/-- The migrated shape of `exSiteRaw`'s single site. -/
def exMigratedSite : JVal :=
  .jobj [("what_to_do", .jarr [exItem]), ("created_at", .jstr "T1"), ("notes", .jstr ""),
         ("photos", .jarr []), ("materials_need", .jarr []), ("materials_have", .jarr []),
         ("to_buy", .jarr []), ("section_photos", freshSections)]

/-- The migrated shape of `exSiteRaw`. -/
def exMigratedRoot : JVal :=
  .jobj [("job_sites", .jobj [("Site A", exMigratedSite)]), ("version", .jnum 2),
         ("app_version", .jstr APP_VERSION)]

theorem migration_idempotent_witness :
    migrate_db (fun _ => 0) "T1" exSiteRaw = some (exMigratedRoot, [exMigratedRoot]) ∧
    migrate_db (fun _ => 1) "T2" exMigratedRoot = some (exMigratedRoot, [exMigratedRoot]) :=
  ⟨by decide,
   migration_idempotent (fun _ => 0) "T1" exSiteRaw exMigratedRoot [exMigratedRoot]
     (fun _ => 1) "T2" (by decide)⟩

/-! ## Claim C5 -/

/-- Counterexample to claim C5: on a root that is not a mapping the
Migration Engine returns a fresh default Database Root but performs no
`save_db` write at all (the `return default_db()` on app.py line 248 comes
before the `save_db(db)` on line 291), so the returned root is *not* made
durable before migration returns. -/
theorem nonmapping_root_not_persisted_cex :
    migrate_db (fun _ => 0) "T" (.jstr "oops") = some (default_db "T", []) := rfl

/-- Claim C5 (amended): for every input that *is* a mapping at the root,
the Database Root returned by a successful migration is written to durable
storage before migration returns — the write list is exactly one `save_db`
of the returned root.  (Non-mapping inputs return a fresh default root
without persisting it.) -/
theorem mapping_root_persisted (rand : Nat → Nat) (now : String)
    (kvs : List (String × JVal)) (E : JVal) (w : List JVal)
    (h : migrate_db rand now (.jobj kvs) = some (E, w)) : w = [E] := by
  simp only [migrate_db] at h
  split at h
  · cases h
  · rename_i sites' cfin heq
    rw [Option.some_inj, Prod.mk.injEq] at h
    obtain ⟨h1, h2⟩ := h
    rw [← h2, h1]

theorem mapping_root_persisted_witness :
    migrate_db (fun _ => 0) "T1" exSiteRaw = some (exMigratedRoot, [exMigratedRoot]) ∧
    [exMigratedRoot] = [exMigratedRoot] :=
  ⟨by decide,
   mapping_root_persisted (fun _ => 0) "T1"
     [("job_sites", .jobj [("Site A", .jobj [("what_to_do", .jarr [.jstr "Buy wire"])])])]
     exMigratedRoot [exMigratedRoot] (by decide)⟩

/-! ## Claim C6 -/

/-- A persisted document that parses as JSON but whose site has an integer
`photos` field. -/
def badPhotosDoc : JVal :=
  .jobj [("job_sites", .jobj [("s", .jobj [("photos", .jnum 5)])])]

/-- Counterexample to claim C6's "load() never raises": a document that
parses fine but stores `photos: 5` makes `migrate_db` execute
`for p in site["photos"]` over an integer, raising `TypeError`; `load_db`
only guards the `json.load` call with `try`, so the exception escapes
`load()` (modelled as `none`). -/
theorem load_db_raises_on_illtyped_doc_cex :
    load_db (fun _ => 0) "T" true (some badPhotosDoc) = none := by decide

/-- Claim C6 (amended): when no prior storage exists, or the prior storage
fails to parse, `load()` creates, persists, and returns a fresh default
Database Root with an empty `job_sites` mapping, without raising —
corrupted storage is overwritten, not preserved.  (A document that parses
but has certain ill-typed site fields can still make the unguarded
migration step raise.) -/
theorem load_db_recovers_absent_or_unparseable (rand : Nat → Nat) (now : String)
    (fileExists : Bool) (parsed : Option JVal)
    (h : fileExists = false ∨ parsed = none) :
    load_db rand now fileExists parsed = some (default_db now, [default_db now]) ∧
    rootField (default_db now) "job_sites" = some (.jobj []) := by
  constructor
  · rcases h with h | h
    · subst h
      simp [load_db]
    · subst h
      cases fileExists <;> simp [load_db]
  · rfl

theorem load_db_recovers_witness :
    load_db (fun _ => 0) "T" true none = some (default_db "T", [default_db "T"]) ∧
    rootField (default_db "T") "job_sites" = some (.jobj []) :=
  load_db_recovers_absent_or_unparseable (fun _ => 0) "T" true none (Or.inr rfl)

/-! ## Claim C2 -/

/-- Does a JSON value carry a list? -/
def isListVal : JVal → Bool
  | .jarr _ => true
  | _ => false

/-- A parsed document violating each part of the migration postcondition at
once: an old `version: 1` tag, a site `"s"` whose `section_photos.general`
is the number 5 and whose `what_to_do` list starts with a text-dict but
also holds the number 42, and a site `"t"` that is a plain string. -/
def exBadDoc : JVal :=
  .jobj [("version", .jnum 1),
         ("job_sites", .jobj [
            ("s", .jobj [
               ("what_to_do", .jarr [.jobj [("text", .jstr "a")], .jnum 42]),
               ("section_photos", .jobj [("general", .jnum 5)])]),
            ("t", .jstr "junk")])]

/-- The `section_photos` entries of site `"s"` after migrating `exBadDoc`. -/
def exBadSections : List (String × JVal) :=
  [("general", .jnum 5), ("what_to_do", .jarr []), ("materials", .jarr []),
   ("to_buy", .jarr []), ("notes", .jarr [])]

/-- Site `"s"` of `exBadDoc` after migration. -/
def exBadSite : List (String × JVal) :=
  [("what_to_do", .jarr [.jobj [("text", .jstr "a")], .jnum 42]),
   ("section_photos", .jobj exBadSections),
   ("created_at", .jstr "T"), ("notes", .jstr ""), ("photos", .jarr []),
   ("materials_need", .jarr []), ("materials_have", .jarr []), ("to_buy", .jarr [])]

/-- The `job_sites` entries of `exBadDoc` after migration. -/
def exBadSitesKvs : List (String × JVal) :=
  [("s", .jobj exBadSite), ("t", .jstr "junk")]

/-- The root `migrate_db` returns on `exBadDoc`. -/
def exBadMigrated : JVal :=
  .jobj [("version", .jnum 1), ("job_sites", .jobj exBadSitesKvs),
         ("app_version", .jstr APP_VERSION)]

/-- Counterexample to claim C2, refuting each of its parts on the single
input `exBadDoc`, whose migration succeeds: (i) the Migration Engine only
`setdefault`s `version` (app.py line 254), so the pre-existing `version: 1`
survives and the root's version does not equal the current schema version
2; (ii) `section_photos.setdefault(k, [])` (line 281) keeps the
pre-existing non-list value `general: 5`, so a section key need not be
present *as a list*; (iii) the already-migrated fast path (lines 237-238)
inspects only the first element, so `what_to_do` keeps the number 42,
which is not a current-shape Item object (not even a dict with a `text`
key); (iv) the site loop skips non-dict site records (lines 258-259), so
site `"t"` survives as the plain string `"junk"`, a record that is not a
mapping and carries no `section_photos` keys at all — the postcondition
can only speak of site records that are mappings. -/
theorem postcondition_violations_cex :
    migrate_db (fun _ => 0) "T" exBadDoc = some (exBadMigrated, [exBadMigrated]) ∧
    rootField exBadMigrated "version" = some (.jnum 1) ∧
    (JVal.jnum 1) ≠ (JVal.jnum 2) ∧
    rootField exBadMigrated "job_sites" = some (.jobj exBadSitesKvs) ∧
    olookup exBadSitesKvs "s" = some (.jobj exBadSite) ∧
    olookup exBadSite "section_photos" = some (.jobj exBadSections) ∧
    olookup exBadSections "general" = some (.jnum 5) ∧
    isListVal (.jnum 5) = false ∧
    olookup exBadSite "what_to_do" =
      some (.jarr [.jobj [("text", .jstr "a")], .jnum 42]) ∧
    isTextDict (.jnum 42) = false ∧
    olookup exBadSitesKvs "t" = some (.jstr "junk") ∧
    rootField (.jstr "junk") "section_photos" = none := by decide

/-- Claim C2 (amended): for every input document on which migration
succeeds, the returned Database Root is a mapping whose `app_version` is the
current app version; its `version` field is present, equal to the current
schema version 2 exactly when the input root (if a mapping) lacked a
`version` field, while a pre-existing value is preserved; `job_sites` is a
mapping; and every site record that is a mapping has its `section_photos`
dict present with all five section keys (a pre-existing non-list value
under a section key is kept as-is), and the four item-list keys bound to
lists that are empty or headed by an Item object with a `text` field (flat
string lists are converted to current-shape Items; the fast path keeps a
list verbatim after inspecting only its first element, so later elements
need not be Items). -/
theorem migration_postcondition (rand : Nat → Nat) (now : String) (D E : JVal)
    (w : List JVal) (h : migrate_db rand now D = some (E, w)) :
    ∃ okvs, E = .jobj okvs ∧
      olookup okvs "app_version" = some (.jstr APP_VERSION) ∧
      (olookup okvs "version").isSome ∧
      (∀ kvs, D = .jobj kvs →
        olookup okvs "version" = some ((olookup kvs "version").getD (.jnum 2))) ∧
      ∃ sites', olookup okvs "job_sites" = some (.jobj sites') ∧
        ∀ nm skvs, (nm, JVal.jobj skvs) ∈ sites' →
          (∃ sp, olookup skvs "section_photos" = some (.jobj sp) ∧
            ∀ k ∈ sectionKeys, (olookup sp k).isSome) ∧
          (∃ l, olookup skvs "what_to_do" = some (.jarr l) ∧
            (l = [] ∨ ∃ hd tl, l = hd :: tl ∧ isTextDict hd = true)) ∧
          (∃ l, olookup skvs "materials_need" = some (.jarr l) ∧
            (l = [] ∨ ∃ hd tl, l = hd :: tl ∧ isTextDict hd = true)) ∧
          (∃ l, olookup skvs "materials_have" = some (.jarr l) ∧
            (l = [] ∨ ∃ hd tl, l = hd :: tl ∧ isTextDict hd = true)) ∧
          (∃ l, olookup skvs "to_buy" = some (.jarr l) ∧
            (l = [] ∨ ∃ hd tl, l = hd :: tl ∧ isTextDict hd = true)) := by
  cases D with
  | jobj kvs =>
    simp only [migrate_db] at h
    split at h
    · cases h
    · rename_i sites' cfin heq
      rw [Option.some_inj, Prod.mk.injEq] at h
      obtain ⟨h1, _⟩ := h
      refine ⟨_, h1.symm, ?_, ?_, ?_, sites', olookup_oset_self _ _ _, ?_⟩
      · rw [olookup_oset_ne _ _ _ _ (by decide)]
        exact olookup_oset_self _ _ _
      · apply isSome_olookup_oset
        apply isSome_olookup_oset
        exact isSome_olookup_osetdefault _ _ _
      · intro kvs0 hD
        have hk : kvs0 = kvs := JVal.jobj.inj hD.symm
        subst hk
        rw [olookup_oset_ne _ _ _ _ (by decide), olookup_oset_ne _ _ _ _ (by decide),
          olookup_osetdefault_self, ensure_job_sites_other _ _ (by decide)]
      · intro nm skvs hm
        have hsf : SiteFixed skvs := migrate_sites_fixed rand now _ 0 sites' cfin heq nm skvs hm
        obtain ⟨sp, hsp, hkeys, _⟩ := hsf.sections
        obtain ⟨l1, hl1, hf1⟩ := hsf.wtd
        obtain ⟨l2, hl2, hf2⟩ := hsf.mneed
        obtain ⟨l3, hl3, hf3⟩ := hsf.mhave
        obtain ⟨l4, hl4, hf4⟩ := hsf.tobuy
        exact ⟨⟨sp, hsp, hkeys⟩,
          ⟨l1, hl1, MLFixed_head_shape l1 hf1⟩,
          ⟨l2, hl2, MLFixed_head_shape l2 hf2⟩,
          ⟨l3, hl3, MLFixed_head_shape l3 hf3⟩,
          ⟨l4, hl4, MLFixed_head_shape l4 hf4⟩⟩
  | jnull =>
    simp only [migrate_db, Option.some_inj, Prod.mk.injEq] at h
    obtain ⟨h1, _⟩ := h
    refine ⟨_, h1.symm, rfl, rfl, ?_, [], rfl, ?_⟩
    · intro kvs0 hD
      cases hD
    · intro nm skvs hm
      cases hm
  | jbool b =>
    simp only [migrate_db, Option.some_inj, Prod.mk.injEq] at h
    obtain ⟨h1, _⟩ := h
    refine ⟨_, h1.symm, rfl, rfl, ?_, [], rfl, ?_⟩
    · intro kvs0 hD
      cases hD
    · intro nm skvs hm
      cases hm
  | jnum m =>
    simp only [migrate_db, Option.some_inj, Prod.mk.injEq] at h
    obtain ⟨h1, _⟩ := h
    refine ⟨_, h1.symm, rfl, rfl, ?_, [], rfl, ?_⟩
    · intro kvs0 hD
      cases hD
    · intro nm skvs hm
      cases hm
  | jstr str =>
    simp only [migrate_db, Option.some_inj, Prod.mk.injEq] at h
    obtain ⟨h1, _⟩ := h
    refine ⟨_, h1.symm, rfl, rfl, ?_, [], rfl, ?_⟩
    · intro kvs0 hD
      cases hD
    · intro nm skvs hm
      cases hm
  | jarr l =>
    simp only [migrate_db, Option.some_inj, Prod.mk.injEq] at h
    obtain ⟨h1, _⟩ := h
    refine ⟨_, h1.symm, rfl, rfl, ?_, [], rfl, ?_⟩
    · intro kvs0 hD
      cases hD
    · intro nm skvs hm
      cases hm

theorem migration_postcondition_witness :
    migrate_db (fun _ => 0) "T1" exSiteRaw = some (exMigratedRoot, [exMigratedRoot]) ∧
    (∃ okvs, exMigratedRoot = .jobj okvs ∧
      olookup okvs "app_version" = some (.jstr APP_VERSION) ∧
      (olookup okvs "version").isSome ∧
      (∀ kvs, exSiteRaw = .jobj kvs →
        olookup okvs "version" = some ((olookup kvs "version").getD (.jnum 2))) ∧
      ∃ sites', olookup okvs "job_sites" = some (.jobj sites') ∧
        ∀ nm skvs, (nm, JVal.jobj skvs) ∈ sites' →
          (∃ sp, olookup skvs "section_photos" = some (.jobj sp) ∧
            ∀ k ∈ sectionKeys, (olookup sp k).isSome) ∧
          (∃ l, olookup skvs "what_to_do" = some (.jarr l) ∧
            (l = [] ∨ ∃ hd tl, l = hd :: tl ∧ isTextDict hd = true)) ∧
          (∃ l, olookup skvs "materials_need" = some (.jarr l) ∧
            (l = [] ∨ ∃ hd tl, l = hd :: tl ∧ isTextDict hd = true)) ∧
          (∃ l, olookup skvs "materials_have" = some (.jarr l) ∧
            (l = [] ∨ ∃ hd tl, l = hd :: tl ∧ isTextDict hd = true)) ∧
          (∃ l, olookup skvs "to_buy" = some (.jarr l) ∧
            (l = [] ∨ ∃ hd tl, l = hd :: tl ∧ isTextDict hd = true))) :=
  ⟨by decide,
   migration_postcondition (fun _ => 0) "T1" exSiteRaw exMigratedRoot [exMigratedRoot]
     (by decide)⟩

/-! ## Claim C3 -/

/-- Claim C3: migration shape detection on flat string lists.  For any item
list that does not trigger the already-migrated fast path (in particular,
every list of plain strings), migration converts exactly the non-blank
entries, in order: the resulting items' `text` fields are the stripped
original strings in their original order (blank and non-string entries are
skipped), and every produced Item has `done = false`, `priority =
"Medium"`, and a non-empty `id`. -/
theorem flat_string_list_migration (rand : Nat → Nat) (now : String) (ctr : Nat)
    (xs : List JVal)
    (hhd : ∀ x, xs.head? = some x → isTextDict x = false) :
    ∃ out c', migrate_list_to_items rand now ctr (.jarr xs) = (.jarr out, c') ∧
      out.map (fun it => itemField it "text") =
        (xs.filterMap strEntryKeep).map (fun s => some (.jstr (pyStrip s))) ∧
      ∀ it ∈ out,
        itemField it "done" = some (.jbool false) ∧
        itemField it "priority" = some (.jstr "Medium") ∧
        ∃ idStr, itemField it "id" = some (.jstr idStr) ∧ idStr ≠ "" := by
  cases xs with
  | nil => exact ⟨[], ctr, rfl, rfl, fun it hit => absurd hit (List.not_mem_nil it)⟩
  | cons x rest =>
    have hx : isTextDict x = false := hhd x rfl
    refine ⟨(convert_strings rand now ctr (x :: rest)).1,
      (convert_strings rand now ctr (x :: rest)).2, by simp [migrate_list_to_items, hx], ?_, ?_⟩
    · exact convert_strings_text rand now (x :: rest) ctr
    · intro it hit
      obtain ⟨r, s, hits⟩ := convert_strings_items rand now (x :: rest) ctr it hit
      subst hits
      exact ⟨new_item_done _ _ _ _ _, new_item_priority _ _ _ _ _,
        uuid_hex10 r, new_item_id _ _ _ _ _, uuid_hex10_ne_empty r⟩

theorem flat_string_list_migration_witness :
    (∀ x, ([JVal.jstr "Buy wire", JVal.jstr "Buy conduit"] : List JVal).head? = some x →
      isTextDict x = false) ∧
    (∃ out c', migrate_list_to_items (fun n => n) "T" 0
        (.jarr [.jstr "Buy wire", .jstr "Buy conduit"]) = (.jarr out, c') ∧
      out.map (fun it => itemField it "text") =
        (([JVal.jstr "Buy wire", JVal.jstr "Buy conduit"] : List JVal).filterMap
          strEntryKeep).map (fun s => some (.jstr (pyStrip s))) ∧
      ∀ it ∈ out,
        itemField it "done" = some (.jbool false) ∧
        itemField it "priority" = some (.jstr "Medium") ∧
        ∃ idStr, itemField it "id" = some (.jstr idStr) ∧ idStr ≠ "") :=
  ⟨fun x hx => by cases hx; rfl,
   flat_string_list_migration (fun n => n) "T" 0 [.jstr "Buy wire", .jstr "Buy conduit"]
     (fun x hx => by cases hx; rfl)⟩

/-! ## Claim C4 -/

theorem oset_oset (kvs : List (String × JVal)) (k : String) (v v' : JVal) :
    oset (oset kvs k v) k v' = oset kvs k v' := by
  induction kvs with
  | nil => simp [oset]
  | cons kv rest ih =>
    obtain ⟨k', v0⟩ := kv
    by_cases hk : k' = k
    · simp [oset, hk]
    · simp [oset, hk, ih]

theorem olookup_osetdefault_keep (kvs : List (String × JVal)) (k0 : String) (v : JVal)
    (k : String) (h : (olookup kvs k).isSome) :
    olookup (osetdefault kvs k0 v) k = olookup kvs k := by
  cases h0 : olookup kvs k0 with
  | some v2 => rw [osetdefault_of_isSome _ _ _ (by simp [h0])]
  | none =>
    rw [osetdefault_of_none _ _ _ h0]
    exact olookup_append_of_isSome _ _ _ h

theorem foldl_osetdefault_keep (ks : List String) :
    ∀ (sp : List (String × JVal)) (k : String), (olookup sp k).isSome →
      olookup (ks.foldl (fun acc k2 => osetdefault acc k2 (.jarr [])) sp) k = olookup sp k := by
  induction ks with
  | nil => intro sp k _; rfl
  | cons k0 ks ih =>
    intro sp k h
    simp only [List.foldl_cons]
    rw [ih _ k (by rw [olookup_osetdefault_keep _ _ _ _ h]; exact h)]
    exact olookup_osetdefault_keep _ _ _ _ h

/-- Modelled from the spec's phrasing of the legacy-photo union: the legacy
photo paths not already present, in order of first appearance, `seen`
accumulating what is already in `general`. -/
def firstAppearance : List JVal → List JVal → List JVal
  | [], _ => []
  | p :: rest, seen =>
    if p ∈ seen then firstAppearance rest seen
    else p :: firstAppearance rest (seen ++ [p])

theorem firstAppearance_mem : ∀ (ps seen : List JVal) (p : JVal),
    p ∈ firstAppearance ps seen → p ∈ ps ∧ p ∉ seen := by
  intro ps
  induction ps with
  | nil => intro seen p h; cases h
  | cons q rest ih =>
    intro seen p h
    by_cases hq : q ∈ seen
    · simp only [firstAppearance, if_pos hq] at h
      obtain ⟨h1, h2⟩ := ih seen p h
      exact ⟨List.mem_cons_of_mem _ h1, h2⟩
    · simp only [firstAppearance, if_neg hq] at h
      rcases List.mem_cons.mp h with h | h
      · subst h
        exact ⟨List.mem_cons_self _ _, hq⟩
      · obtain ⟨h1, h2⟩ := ih _ p h
        refine ⟨List.mem_cons_of_mem _ h1, fun hc => h2 ?_⟩
        exact List.mem_append_left _ hc

theorem firstAppearance_nodup : ∀ (ps seen : List JVal), (firstAppearance ps seen).Nodup := by
  intro ps
  induction ps with
  | nil => intro seen; exact List.nodup_nil
  | cons q rest ih =>
    intro seen
    by_cases hq : q ∈ seen
    · simp only [firstAppearance, if_pos hq]
      exact ih seen
    · simp only [firstAppearance, if_neg hq]
      refine List.Nodup.cons ?_ (ih _)
      intro hc
      obtain ⟨_, h2⟩ := firstAppearance_mem rest (seen ++ [q]) q hc
      exact h2 (List.mem_append_right _ (List.mem_singleton_self _))

theorem firstAppearance_complete : ∀ (ps seen : List JVal) (p : JVal),
    p ∈ ps → p ∉ seen → p ∈ firstAppearance ps seen := by
  intro ps
  induction ps with
  | nil => intro seen p h _; cases h
  | cons q rest ih =>
    intro seen p hp hns
    by_cases hq : q ∈ seen
    · simp only [firstAppearance, if_pos hq]
      rcases List.mem_cons.mp hp with hp | hp
      · subst hp; exact absurd hq hns
      · exact ih seen p hp hns
    · simp only [firstAppearance, if_neg hq]
      rcases List.mem_cons.mp hp with hp | hp
      · subst hp; exact List.mem_cons_self _ _
      · by_cases hpq : p = q
        · subst hpq; exact List.mem_cons_self _ _
        · refine List.mem_cons_of_mem _ (ih _ p hp ?_)
          intro hc
          rcases List.mem_append.mp hc with hc | hc
          · exact hns hc
          · exact hpq (List.mem_singleton.mp hc)

theorem firstAppearance_sublist : ∀ (ps seen : List JVal), List.Sublist (firstAppearance ps seen) ps := by
  intro ps
  induction ps with
  | nil => intro seen; exact List.Sublist.refl _
  | cons q rest ih =>
    intro seen
    by_cases hq : q ∈ seen
    · simp only [firstAppearance, if_pos hq]
      exact List.Sublist.cons _ (ih seen)
    · simp only [firstAppearance, if_neg hq]
      exact List.Sublist.cons₂ _ (ih _)

/-- The legacy-photo mirroring loop on a list-valued `general`: the result
is exactly the old list followed by the first appearances of the legacy
paths not already present. -/
theorem mirror_photos_jarr : ∀ (ps : List JVal) (sp : List (String × JVal)) (g : List JVal),
    olookup sp "general" = some (.jarr g) →
    mirror_photos ps sp = some (oset sp "general" (.jarr (g ++ firstAppearance ps g))) := by
  intro ps
  induction ps with
  | nil =>
    intro sp g hg
    simp only [mirror_photos, firstAppearance, List.append_nil]
    rw [oset_of_lookup_eq _ _ _ hg]
  | cons p rest ih =>
    intro sp g hg
    by_cases hp : p ∈ g
    · have hm : pyMem p (.jarr g) = some true := by simp [pyMem, hp]
      simp only [mirror_photos, hg, hm]
      rw [ih sp g hg]
      simp only [firstAppearance, if_pos hp]
    · have hm : pyMem p (.jarr g) = some false := by simp [pyMem, hp]
      simp only [mirror_photos, hg, hm, pyAppend]
      rw [ih (oset sp "general" (.jarr (g ++ [p]))) (g ++ [p]) (olookup_oset_self _ _ _)]
      rw [oset_oset]
      simp only [firstAppearance, if_neg hp, List.append_assoc, List.singleton_append]

/-- Claim C4: legacy photo union.  For a site whose legacy `photos` list is
non-empty and whose `section_photos.general` is a list, migration succeeds
and produces a `general` list consisting of the pre-existing entries first,
followed by exactly the legacy photo paths not already present, in order of
first appearance: the appended block is duplicate-free, disjoint from the
pre-existing entries, contains every legacy path missing from `general`,
and preserves the relative order of `photos` (it is a sublist of it). -/
theorem legacy_photo_union (rand : Nat → Nat) (now : String) (ctr : Nat)
    (site : List (String × JVal)) (ps g : List JVal) (sp : List (String × JVal))
    (hph : olookup site "photos" = some (.jarr ps)) (hne : ps ≠ [])
    (hsp : olookup site "section_photos" = some (.jobj sp))
    (hg : olookup sp "general" = some (.jarr g)) :
    ∃ site' c' sp', migrate_site rand now ctr site = some (site', c') ∧
      olookup site' "section_photos" = some (.jobj sp') ∧
      olookup sp' "general" = some (.jarr (g ++ firstAppearance ps g)) ∧
      (firstAppearance ps g).Nodup ∧
      (∀ p ∈ firstAppearance ps g, p ∈ ps ∧ p ∉ g) ∧
      (∀ p ∈ ps, p ∉ g → p ∈ firstAppearance ps g) ∧
      List.Sublist (firstAppearance ps g) ps := by
  have hXp : olookup (site_defaults now site) "photos" = some (.jarr ps) := by
    unfold site_defaults
    rw [olookup_osetdefault_keep _ _ _ _ (by
        rw [olookup_osetdefault_ne _ _ _ _ (by decide),
          olookup_osetdefault_ne _ _ _ _ (by decide), hph]
        rfl),
      olookup_osetdefault_ne _ _ _ _ (by decide),
      olookup_osetdefault_ne _ _ _ _ (by decide)]
    exact hph
  have hXs : olookup (site_defaults now site) "section_photos" = some (.jobj sp) := by
    unfold site_defaults
    rw [olookup_osetdefault_ne _ _ _ _ (by decide), olookup_osetdefault_ne _ _ _ _ (by decide),
      olookup_osetdefault_ne _ _ _ _ (by decide)]
    exact hsp
  have h0p : olookup (site_lists rand now ctr (site_defaults now site)).1 "photos" =
      some (.jarr ps) := by
    rw [site_lists_other rand now ctr _ _ (by decide) (by decide) (by decide) (by decide)]
    exact hXp
  have h0s : olookup (site_lists rand now ctr (site_defaults now site)).1 "section_photos" =
      some (.jobj sp) := by
    rw [site_lists_other rand now ctr _ _ (by decide) (by decide) (by decide) (by decide)]
    exact hXs
  have h8 : ensure_sections (site_lists rand now ctr (site_defaults now site)).1 =
      (site_lists rand now ctr (site_defaults now site)).1 := by
    simp [ensure_sections, h0s]
  have hsec : sections_of (site_lists rand now ctr (site_defaults now site)).1 = sp := by
    simp [sections_of, h0s]
  have hg2 : olookup (sectionKeys.foldl (fun acc k2 => osetdefault acc k2 (.jarr [])) sp)
      "general" = some (.jarr g) := by
    rw [foldl_osetdefault_keep sectionKeys sp "general" (by simp [hg])]
    exact hg
  have hog : ogetD (oset (site_lists rand now ctr (site_defaults now site)).1 "section_photos"
      (.jobj (sectionKeys.foldl (fun acc k2 => osetdefault acc k2 (.jarr [])) sp)))
      "photos" .jnull = .jarr ps := by
    unfold ogetD
    rw [olookup_oset_ne _ _ _ _ (by decide), h0p]
    rfl
  have htr : (JVal.jarr ps).truthy = true := by
    cases ps with
    | nil => exact absurd rfl hne
    | cons a l => rfl
  have hmr := mirror_photos_jarr ps
    (sectionKeys.foldl (fun acc k2 => osetdefault acc k2 (.jarr [])) sp) g hg2
  refine ⟨oset (oset (site_lists rand now ctr (site_defaults now site)).1 "section_photos"
      (.jobj (sectionKeys.foldl (fun acc k2 => osetdefault acc k2 (.jarr [])) sp)))
      "section_photos"
      (.jobj (oset (sectionKeys.foldl (fun acc k2 => osetdefault acc k2 (.jarr [])) sp)
        "general" (.jarr (g ++ firstAppearance ps g)))),
    (site_lists rand now ctr (site_defaults now site)).2,
    oset (sectionKeys.foldl (fun acc k2 => osetdefault acc k2 (.jarr [])) sp)
      "general" (.jarr (g ++ firstAppearance ps g)), ?_,
    olookup_oset_self _ _ _, olookup_oset_self _ _ _, firstAppearance_nodup ps g,
    fun p hp => firstAppearance_mem ps g p hp,
    fun p hp hn => firstAppearance_complete ps g p hp hn,
    firstAppearance_sublist ps g⟩
  simp only [migrate_site, h8, hsec, hog, htr, if_true, jIterElems, hmr]

/-- The spec's legacy-photo example site: `photos=["a.png","b.png"]`,
`section_photos.general=["b.png"]`. -/
def exPhotoSite : List (String × JVal) :=
  [("photos", .jarr [.jstr "a.png", .jstr "b.png"]),
   ("section_photos", .jobj [("general", .jarr [.jstr "b.png"])])]

theorem legacy_photo_union_witness :
    olookup exPhotoSite "photos" = some (.jarr [.jstr "a.png", .jstr "b.png"]) ∧
    (∃ site' c' sp', migrate_site (fun n => n) "T" 0 exPhotoSite = some (site', c') ∧
      olookup site' "section_photos" = some (.jobj sp') ∧
      olookup sp' "general" = some (.jarr ([.jstr "b.png"] ++
        firstAppearance [.jstr "a.png", .jstr "b.png"] [.jstr "b.png"])) ∧
      (firstAppearance [.jstr "a.png", .jstr "b.png"] [.jstr "b.png"]).Nodup ∧
      (∀ p ∈ firstAppearance [.jstr "a.png", .jstr "b.png"] [.jstr "b.png"],
        p ∈ [JVal.jstr "a.png", JVal.jstr "b.png"] ∧ p ∉ [JVal.jstr "b.png"]) ∧
      (∀ p ∈ [JVal.jstr "a.png", JVal.jstr "b.png"], p ∉ [JVal.jstr "b.png"] →
        p ∈ firstAppearance [.jstr "a.png", .jstr "b.png"] [.jstr "b.png"]) ∧
      List.Sublist (firstAppearance [.jstr "a.png", .jstr "b.png"] [.jstr "b.png"])
        [.jstr "a.png", .jstr "b.png"]) ∧
    [JVal.jstr "b.png"] ++ firstAppearance [.jstr "a.png", .jstr "b.png"] [.jstr "b.png"] =
      [.jstr "b.png", .jstr "a.png"] :=
  ⟨by decide,
   legacy_photo_union (fun n => n) "T" 0 exPhotoSite
     [.jstr "a.png", .jstr "b.png"] [.jstr "b.png"] [("general", .jarr [.jstr "b.png"])]
     (by decide) (by decide) (by decide) (by decide),
   by decide⟩

/-! ## Claims C8 and C9: the presentation sort -/

theorem charListLe_refl : ∀ l : List Char, charListLe l l = true := by
  intro l
  induction l with
  | nil => rfl
  | cons a as ih => simp [charListLe, ih]

theorem keyLe_refl (a : Bool × Nat × String) : keyLe a a = true := by
  unfold keyLe
  simp [charListLe_refl]

theorem charListLe_total : ∀ a b : List Char, charListLe a b = true ∨ charListLe b a = true := by
  intro a
  induction a with
  | nil => intro b; left; rfl
  | cons x xs ih =>
    intro b
    cases b with
    | nil => right; rfl
    | cons y ys =>
      rcases lt_trichotomy x y with h | h | h
      · left; simp [charListLe, h]
      · subst h
        rcases ih ys with h2 | h2
        · left; simp [charListLe, h2]
        · right; simp [charListLe, h2]
      · right; simp [charListLe, h]

theorem charListLe_trans : ∀ a b c : List Char,
    charListLe a b = true → charListLe b c = true → charListLe a c = true := by
  intro a
  induction a with
  | nil => intro b c _ _; rfl
  | cons x xs ih =>
    intro b c hab hbc
    cases b with
    | nil => simp [charListLe] at hab
    | cons y ys =>
      cases c with
      | nil => simp [charListLe] at hbc
      | cons z zs =>
        simp only [charListLe, Bool.or_eq_true, Bool.and_eq_true, decide_eq_true_eq] at hab hbc ⊢
        rcases hab with hab | ⟨hab1, hab2⟩
        · rcases hbc with hbc | ⟨hbc1, hbc2⟩
          · exact Or.inl (lt_trans hab hbc)
          · exact Or.inl (hbc1 ▸ hab)
        · rcases hbc with hbc | ⟨hbc1, hbc2⟩
          · exact Or.inl (hab1 ▸ hbc)
          · exact Or.inr ⟨hab1.trans hbc1, ih ys zs hab2 hbc2⟩

theorem keyLe_total (a b : Bool × Nat × String) : keyLe a b = true ∨ keyLe b a = true := by
  obtain ⟨ab, ap, ac⟩ := a
  obtain ⟨bb, bp, bc⟩ := b
  unfold keyLe
  dsimp only
  by_cases hb : ab = bb
  · subst hb
    simp only [if_pos rfl]
    by_cases hp : ap = bp
    · subst hp
      simp only [if_pos rfl]
      exact charListLe_total _ _
    · simp only [if_neg hp, if_neg (fun hh : bp = ap => hp hh.symm)]
      rcases Nat.lt_or_ge ap bp with h | h
      · exact Or.inl (decide_eq_true h)
      · exact Or.inr (decide_eq_true (Nat.lt_of_le_of_ne h (fun hh => hp hh.symm)))
  · simp only [if_neg hb, if_neg (fun hh : bb = ab => hb hh.symm)]
    cases ab with
    | false => exact Or.inl (decide_eq_true rfl)
    | true =>
      cases bb with
      | false => exact Or.inr (decide_eq_true rfl)
      | true => exact absurd rfl hb

theorem keyLe_trans (a b c : Bool × Nat × String)
    (hab : keyLe a b = true) (hbc : keyLe b c = true) : keyLe a c = true := by
  obtain ⟨ab, ap, ac⟩ := a
  obtain ⟨bb, bp, bc⟩ := b
  obtain ⟨cb, cp, cc⟩ := c
  unfold keyLe at hab hbc ⊢
  dsimp only at hab hbc ⊢
  split_ifs at hab hbc ⊢ <;>
    first
      | exact charListLe_trans _ _ _ hab hbc
      | simp_all [decide_eq_true_eq] <;> omega

instance : IsTotal ((Bool × Nat × String) × JVal) kle :=
  ⟨fun a b => by unfold kle; exact keyLe_total a.1 b.1⟩

instance : IsTrans ((Bool × Nat × String) × JVal) kle :=
  ⟨fun a b c hab hbc => by
    unfold kle at hab hbc ⊢
    exact keyLe_trans _ _ _ hab hbc⟩

theorem keyItems_spec : ∀ (items : List JVal) (keyed : List ((Bool × Nat × String) × JVal)),
    keyItems items = some keyed →
    keyed.map Prod.snd = items ∧ ∀ p ∈ keyed, sortKey p.2 = some p.1 := by
  intro items
  induction items with
  | nil =>
    intro keyed h
    cases h
    exact ⟨rfl, fun p hp => absurd hp (List.not_mem_nil p)⟩
  | cons x xs ih =>
    intro keyed h
    cases hx : sortKey x with
    | none => simp [keyItems, hx] at h
    | some k =>
      cases hrest : keyItems xs with
      | none => simp [keyItems, hx, hrest] at h
      | some rest =>
        simp only [keyItems, hx, hrest, Option.some_inj] at h
        subst h
        obtain ⟨h1, h2⟩ := ih rest hrest
        refine ⟨by simp [h1], ?_⟩
        intro p hp
        rcases List.mem_cons.mp hp with hp | hp
        · subst hp; exact hx
        · exact h2 p hp

theorem orderedInsert_filter_self (a : (Bool × Nat × String) × JVal)
    (l : List ((Bool × Nat × String) × JVal)) (k : Bool × Nat × String) (hk : a.1 = k) :
    (List.orderedInsert kle a l).filter (fun p => decide (p.1 = k)) =
      a :: l.filter (fun p => decide (p.1 = k)) := by
  rw [List.orderedInsert_eq_take_drop, List.filter_append]
  have htake : (l.takeWhile fun b => ¬ kle a b).filter (fun p => decide (p.1 = k)) = [] := by
    rw [List.filter_eq_nil_iff]
    intro b hb
    have hpb : ¬ kle a b := by
      have := List.mem_takeWhile_imp hb
      simpa using this
    simp only [decide_eq_true_eq]
    intro hbk
    apply hpb
    unfold kle
    rw [hk, hbk]
    exact keyLe_refl k
  rw [htake]
  have hfa : (fun p => decide (p.1 = k)) a = true := by simp [hk]
  conv_rhs => rw [← List.takeWhile_append_dropWhile (fun b => decide (¬ kle a b)) l]
  rw [List.filter_append, htake]
  simp [hfa]

theorem orderedInsert_filter_ne (a : (Bool × Nat × String) × JVal)
    (l : List ((Bool × Nat × String) × JVal)) (k : Bool × Nat × String) (hk : ¬ a.1 = k) :
    (List.orderedInsert kle a l).filter (fun p => decide (p.1 = k)) =
      l.filter (fun p => decide (p.1 = k)) := by
  rw [List.orderedInsert_eq_take_drop, List.filter_append]
  have hfa : (fun p => decide (p.1 = k)) a = false := by simp [hk]
  conv_rhs => rw [← List.takeWhile_append_dropWhile (fun b => decide (¬ kle a b)) l]
  rw [List.filter_append]
  simp [hfa]

theorem insertionSort_filter_key (keyed : List ((Bool × Nat × String) × JVal))
    (k : Bool × Nat × String) :
    (List.insertionSort kle keyed).filter (fun p => decide (p.1 = k)) =
      keyed.filter (fun p => decide (p.1 = k)) := by
  induction keyed with
  | nil => rfl
  | cons x l ih =>
    simp only [List.insertionSort]
    by_cases hx : x.1 = k
    · rw [orderedInsert_filter_self x _ k hx, ih]
      simp [hx]
    · rw [orderedInsert_filter_ne x _ k hx, ih]
      simp [hx]

/-- Characterization of `sort_items`: the result is a permutation of the
stored list, consecutive items are ordered by the `(done, priority rank,
created_at)` key, and items with equal keys keep their stored relative
order (stability). -/
theorem sort_items_characterization (items out : List JVal)
    (h : sort_items items = some out) :
    out.Perm items ∧
    List.Pairwise (fun x y => ∀ kx ky, sortKey x = some kx → sortKey y = some ky →
      keyLe kx ky = true) out ∧
    ∀ k : Bool × Nat × String,
      out.filter (fun x => decide (sortKey x = some k)) =
        items.filter (fun x => decide (sortKey x = some k)) := by
  cases hk : keyItems items with
  | none => simp [sort_items, hk] at h
  | some keyed =>
    simp only [sort_items, hk, Option.some_inj] at h
    subst h
    obtain ⟨hmap, hmem⟩ := keyItems_spec items keyed hk
    have hmemS : ∀ p ∈ List.insertionSort kle keyed, sortKey p.2 = some p.1 := by
      intro p hp
      exact hmem p ((List.mem_insertionSort kle).mp hp)
    refine ⟨?_, ?_, ?_⟩
    · have hperm := List.perm_insertionSort kle keyed
      have := hperm.map Prod.snd
      rw [hmap] at this
      exact this
    · apply (List.pairwise_map).mpr
      apply (List.sorted_insertionSort kle keyed).imp_of_mem
      intro p q hp hq hpq kx ky hkx hky
      rw [hmemS p hp] at hkx
      rw [hmemS q hq] at hky
      cases hkx
      cases hky
      exact hpq
    · intro k
      rw [List.filter_map]
      have hcongr1 : (List.insertionSort kle keyed).filter
          ((fun x => decide (sortKey x = some k)) ∘ Prod.snd) =
          (List.insertionSort kle keyed).filter (fun p => decide (p.1 = k)) := by
        apply List.filter_congr
        intro p hp
        simp [Function.comp, hmemS p hp]
      rw [hcongr1, insertionSort_filter_key]
      have hcongr2 : keyed.filter (fun p => decide (p.1 = k)) =
          keyed.filter ((fun x => decide (sortKey x = some k)) ∘ Prod.snd) := by
        apply List.filter_congr
        intro p hp
        simp [Function.comp, hmem p hp]
      rw [hcongr2, ← List.filter_map, hmap]

/-- Claim C8: presentation sort ordering.  Whenever `sort_items` succeeds,
its output is a permutation of the stored items ordered by the key
`(done, priority rank, created_at)` — `done` ascending (incomplete first),
priority rank ascending with High = 0, Medium = 1, Low = 2 (see `sortKey`),
then `created_at` ascending — and the sort is stable: items with equal keys
keep their stored relative order (the filter by any fixed key is
unchanged). -/
theorem sort_items_presentation_order (items out : List JVal)
    (h : sort_items items = some out) :
    out.Perm items ∧
    List.Pairwise (fun x y => ∀ kx ky, sortKey x = some kx → sortKey y = some ky →
      keyLe kx ky = true) out ∧
    ∀ k : Bool × Nat × String,
      out.filter (fun x => decide (sortKey x = some k)) =
        items.filter (fun x => decide (sortKey x = some k)) :=
  sort_items_characterization items out h

/-- The spec's sort example: `{done:true, priority:Low}`. -/
def exDoneLow : JVal := .jobj [("done", .jbool true), ("priority", .jstr "Low")]

/-- The spec's sort example: `{done:false, priority:High}`. -/
def exHigh : JVal := .jobj [("done", .jbool false), ("priority", .jstr "High")]

/-- The spec's sort example: `{done:false, priority:Low}`. -/
def exLow : JVal := .jobj [("done", .jbool false), ("priority", .jstr "Low")]

theorem sort_items_presentation_order_witness :
    sort_items [exDoneLow, exHigh, exLow] = some [exHigh, exLow, exDoneLow] ∧
    ([exHigh, exLow, exDoneLow] : List JVal).Perm [exDoneLow, exHigh, exLow] ∧
    List.Pairwise (fun x y => ∀ kx ky, sortKey x = some kx → sortKey y = some ky →
      keyLe kx ky = true) [exHigh, exLow, exDoneLow] ∧
    ∀ k : Bool × Nat × String,
      ([exHigh, exLow, exDoneLow] : List JVal).filter
          (fun x => decide (sortKey x = some k)) =
        ([exDoneLow, exHigh, exLow] : List JVal).filter
          (fun x => decide (sortKey x = some k)) :=
  ⟨by decide, sort_items_presentation_order [exDoneLow, exHigh, exLow]
    [exHigh, exLow, exDoneLow] (by decide)⟩

/-! ## Claim C9 -/

/-- Counterexample to claim C9: `sort_items` sorts the stored list in
place (`items.sort(...)` on app.py line 481) and `items_table_ui` calls it
on the site's own list, so rendering a list whose stored order is not the
presentation order changes the stored order — it does not leave it
unchanged.  (The Jobsite page then runs `save_db(db)` on line 732, so the
sorted order is what gets persisted.) -/
theorem render_reorders_stored_list_cex :
    items_table_ui_order [exDoneLow, exHigh] = some [exHigh, exDoneLow] ∧
    some [JVal.jobj [("done", .jbool false), ("priority", .jstr "High")],
      JVal.jobj [("done", .jbool true), ("priority", .jstr "Low")]] ≠
      some [exDoneLow, exHigh] := by decide

/-- Claim C9 (amended): rendering an item list reorders the stored list in
place into the presentation order, so the persisted order after the
page-level save is the sorted order rather than the insertion order; the
multiset of stored items is preserved (rendering never adds, drops, or
rewrites items — only their order). -/
theorem render_preserves_item_multiset (items out : List JVal)
    (h : items_table_ui_order items = some out) :
    out.Perm items := by
  unfold items_table_ui_order at h
  by_cases he : items.isEmpty = true
  · rw [if_pos he] at h
    cases h
    exact List.Perm.refl _
  · rw [if_neg he] at h
    exact (sort_items_characterization items out h).1

theorem render_preserves_item_multiset_witness :
    items_table_ui_order [exDoneLow, exHigh] = some [exHigh, exDoneLow] ∧
    ([exHigh, exDoneLow] : List JVal).Perm [exDoneLow, exHigh] :=
  ⟨by decide, render_preserves_item_multiset [exDoneLow, exHigh] [exHigh, exDoneLow]
    (by decide)⟩

/-! ## Claim C7 -/

/-- The string under field `k`, with Python's `.get(k, "")` default. -/
def itemStrField (it : JVal) (k : String) : String :=
  match itemField it k with
  | some (.jstr s) => s
  | _ => ""

/-- The claim's matcher: the (lowered) query occurs in the item's lowered
`text` or lowered `link`. -/
def searchMatches (q : String) (it : JVal) : Bool :=
  strContainsSub (pyLower (itemStrField it "text")) q ||
  strContainsSub (pyLower (itemStrField it "link")) q

/-- Field `k` is absent or holds a string (the only shapes the app ever
writes; anything else makes Python's `.lower()` raise). -/
def fieldOkB (kvs : List (String × JVal)) (k : String) : Bool :=
  match olookup kvs k with
  | none => true
  | some (.jstr _) => true
  | _ => false

/-- An item dict whose `text` and `link` are absent-or-string. -/
def wellTypedItemB (it : JVal) : Bool :=
  match it with
  | .jobj kvs => fieldOkB kvs "text" && fieldOkB kvs "link"
  | _ => false

theorem fieldOk_cases (kvs : List (String × JVal)) (k : String) (h : fieldOkB kvs k = true) :
    olookup kvs k = none ∨ ∃ s, olookup kvs k = some (.jstr s) := by
  cases hv : olookup kvs k with
  | none => exact Or.inl rfl
  | some v =>
    cases v with
    | jstr s => exact Or.inr ⟨s, rfl⟩
    | jnull => simp [fieldOkB, hv] at h
    | jbool b => simp [fieldOkB, hv] at h
    | jnum m => simp [fieldOkB, hv] at h
    | jarr l => simp [fieldOkB, hv] at h
    | jobj kvs2 => simp [fieldOkB, hv] at h

theorem match_item_of_wellTyped (q : String) (it : JVal) (h : wellTypedItemB it = true) :
    match_item q it = some (searchMatches q it) := by
  cases it with
  | jobj kvs =>
    rw [wellTypedItemB, Bool.and_eq_true] at h
    obtain ⟨ht, hl⟩ := h
    have htextStr : ∃ ts, (olookup kvs "text").getD (.jstr "") = .jstr ts ∧
        itemStrField (.jobj kvs) "text" = ts := by
      rcases fieldOk_cases kvs "text" ht with hv | ⟨s, hv⟩
      · exact ⟨"", by simp [hv], by simp [itemStrField, itemField, hv]⟩
      · exact ⟨s, by simp [hv], by simp [itemStrField, itemField, hv]⟩
    have hlinkStr : ∃ ls, (olookup kvs "link").getD (.jstr "") = .jstr ls ∧
        itemStrField (.jobj kvs) "link" = ls := by
      rcases fieldOk_cases kvs "link" hl with hv | ⟨s, hv⟩
      · exact ⟨"", by simp [hv], by simp [itemStrField, itemField, hv]⟩
      · exact ⟨s, by simp [hv], by simp [itemStrField, itemField, hv]⟩
    obtain ⟨ts, hts, hts2⟩ := htextStr
    obtain ⟨ls, hls, hls2⟩ := hlinkStr
    by_cases hc : strContainsSub (pyLower ts) q = true
    · simp [match_item, searchMatches, hts, hts2, hc]
    · simp [match_item, searchMatches, hts, hts2, hls, hls2,
        Bool.not_eq_true _ |>.mp hc]
  | jnull => simp [wellTypedItemB] at h
  | jbool b => simp [wellTypedItemB] at h
  | jnum m => simp [wellTypedItemB] at h
  | jstr s => simp [wellTypedItemB] at h
  | jarr l => simp [wellTypedItemB] at h

theorem filterItems_of_wellTyped (q : String) :
    ∀ l : List JVal, (∀ it ∈ l, wellTypedItemB it = true) →
      filterItems q l = some (l.filter (searchMatches q)) := by
  intro l
  induction l with
  | nil => intro _; rfl
  | cons it rest ih =>
    intro h
    rw [List.filter_cons]
    simp only [filterItems, match_item_of_wellTyped q it (h it (List.mem_cons_self _ _)),
      ih (fun x hx => h x (List.mem_cons_of_mem _ hx))]

/-- Claim C7: substring search.  For a site whose four item lists are
present (as every migrated site's are) with absent-or-string `text`/`link`
fields and a string (or absent) `notes` field: a query that is empty or
whitespace-only applies no filter — the distinguished `None` result — and
otherwise the search returns, for each of the four lists, exactly the items
whose lowered `text` or `link` contains the lowered stripped query, plus a
flag that is true iff the lowered notes contain it. -/
theorem search_filter_correct (kvs : List (String × JVal)) (l1 l2 l3 l4 : List JVal)
    (notes : String) (query : String)
    (h1 : olookup kvs "what_to_do" = some (.jarr l1))
    (h2 : olookup kvs "materials_need" = some (.jarr l2))
    (h3 : olookup kvs "materials_have" = some (.jarr l3))
    (h4 : olookup kvs "to_buy" = some (.jarr l4))
    (hn : (olookup kvs "notes").getD (.jstr "") = .jstr notes)
    (hwt : ∀ it ∈ l1 ++ l2 ++ l3 ++ l4, wellTypedItemB it = true) :
    (pyStrip query = "" → site_search_filter (.jobj kvs) query = some none) ∧
    (pyStrip query ≠ "" →
      site_search_filter (.jobj kvs) query =
        some (some ⟨
          l1.filter (searchMatches (pyLower (pyStrip query))),
          l2.filter (searchMatches (pyLower (pyStrip query))),
          l3.filter (searchMatches (pyLower (pyStrip query))),
          l4.filter (searchMatches (pyLower (pyStrip query))),
          strContainsSub (pyLower notes) (pyLower (pyStrip query))⟩)) := by
  constructor
  · intro hq
    simp [site_search_filter, hq, pyLower]
  · intro hq
    have hq2 : ¬ (pyLower (pyStrip query) = "") := by
      intro hc
      apply hq
      apply String.ext
      have hmap : (pyStrip query).data.map Char.toLower = [] := congrArg String.data hc
      exact List.map_eq_nil_iff.mp hmap
    have hf1 : filterItems (pyLower (pyStrip query)) l1 =
        some (l1.filter (searchMatches (pyLower (pyStrip query)))) :=
      filterItems_of_wellTyped _ l1 (fun it hit => hwt it (by simp [hit]))
    have hf2 : filterItems (pyLower (pyStrip query)) l2 =
        some (l2.filter (searchMatches (pyLower (pyStrip query)))) :=
      filterItems_of_wellTyped _ l2 (fun it hit => hwt it (by simp [hit]))
    have hf3 : filterItems (pyLower (pyStrip query)) l3 =
        some (l3.filter (searchMatches (pyLower (pyStrip query)))) :=
      filterItems_of_wellTyped _ l3 (fun it hit => hwt it (by simp [hit]))
    have hf4 : filterItems (pyLower (pyStrip query)) l4 =
        some (l4.filter (searchMatches (pyLower (pyStrip query)))) :=
      filterItems_of_wellTyped _ l4 (fun it hit => hwt it (by simp [hit]))
    simp only [site_search_filter]
    rw [if_neg hq2]
    simp only [h1, hf1, h2, hf2, h3, hf3, h4, hf4, hn]

/-- The spec's search example items. -/
def exItemGFCI : JVal := .jobj [("text", .jstr "GFCI outlet")]

/-- The spec's search example items. -/
def exItemWire : JVal := .jobj [("text", .jstr "14/2 wire")]

/-- The spec's search example site dict. -/
def exSearchSite : List (String × JVal) :=
  [("what_to_do", .jarr [exItemGFCI, exItemWire]), ("materials_need", .jarr []),
   ("materials_have", .jarr []), ("to_buy", .jarr []), ("notes", .jstr "")]

theorem search_filter_correct_witness :
    ((pyStrip "gfci" = "" → site_search_filter (.jobj exSearchSite) "gfci" = some none) ∧
     (pyStrip "gfci" ≠ "" →
       site_search_filter (.jobj exSearchSite) "gfci" =
         some (some ⟨
           ([exItemGFCI, exItemWire] : List JVal).filter
             (searchMatches (pyLower (pyStrip "gfci"))),
           ([] : List JVal).filter (searchMatches (pyLower (pyStrip "gfci"))),
           ([] : List JVal).filter (searchMatches (pyLower (pyStrip "gfci"))),
           ([] : List JVal).filter (searchMatches (pyLower (pyStrip "gfci"))),
           strContainsSub (pyLower "") (pyLower (pyStrip "gfci"))⟩))) ∧
    ([exItemGFCI, exItemWire] : List JVal).filter
      (searchMatches (pyLower (pyStrip "gfci"))) = [exItemGFCI] ∧
    site_search_filter (.jobj exSearchSite) "   " = some none :=
  ⟨search_filter_correct exSearchSite [exItemGFCI, exItemWire] [] [] [] "" "gfci"
     (by decide) (by decide) (by decide) (by decide) (by decide) (by decide),
   by decide, by decide⟩

/-! ## Claim C10 -/

/-- Counterexample to claim C10: `duckduckgo_pdf_search` performs
`requests.get(...)` and `resp.raise_for_status()` with no exception handler
of its own (app.py lines 318-319), so a network error or non-2xx status
raises to the caller rather than returning an empty sequence.  (The Manuals
page, not the function, wraps the call in `try/except`.) -/
theorem search_raises_on_network_failure_cex :
    duckduckgo_pdf_search (fun s => s) none 10 = none := rfl

theorem dedupeByUrl_nodup : ∀ (l : List (String × String)) (seen : List String),
    ((dedupeByUrl l seen).map Prod.snd).Nodup ∧
    ∀ u ∈ (dedupeByUrl l seen).map Prod.snd, u ∉ seen := by
  intro l
  induction l with
  | nil => intro seen; exact ⟨List.nodup_nil, fun u hu => absurd hu (List.not_mem_nil u)⟩
  | cons r rest ih =>
    intro seen
    by_cases hr : r.2 ∈ seen
    · simp only [dedupeByUrl, if_pos hr]
      exact ih seen
    · simp only [dedupeByUrl, if_neg hr, List.map_cons]
      obtain ⟨hnd, hns⟩ := ih (r.2 :: seen)
      refine ⟨List.Nodup.cons ?_ hnd, ?_⟩
      · intro hc
        exact hns r.2 hc (List.mem_cons_self _ _)
      · intro u hu
        rcases List.mem_cons.mp hu with hu | hu
        · subst hu; exact hr
        · intro hc
          exact hns u hu (List.mem_cons_of_mem _ hc)

/-- Claim C10 (amended): the manual-search helper raises to its caller on
any network failure (its caller catches and shows an empty result list);
whenever the fetch and parse succeed it returns a result sequence of
`(title, url)` pairs with at most `max_results` entries and no two entries
sharing a url. -/
theorem search_bounded_distinct_on_fetch (normalize : String → String)
    (anchors : List DDGAnchor) (max_results : Nat) :
    ∃ rs, duckduckgo_pdf_search normalize (some anchors) max_results = some rs ∧
      rs.length ≤ max_results ∧ (rs.map Prod.snd).Nodup := by
  refine ⟨(dedupeByUrl (collectResults normalize max_results anchors []) []).take max_results,
    rfl, List.length_take_le _ _, ?_⟩
  rw [List.map_take]
  exact List.Nodup.sublist (List.take_sublist _ _)
    (dedupeByUrl_nodup (collectResults normalize max_results anchors []) []).1
